import Mathlib

/-!
# Verification of the emporte extraction-to-calendar pipeline

Shallow embedding of the core pipeline of the emporte repository:

* the zod schemas of `packages/common` (`scheduleEventSchema`,
  `scheduleDataSchema`, `previewResultSchema`),
* `parseTimeToMinutes` from `packages/common/src/timeutils.ts`,
* the worker `processAiJob` (AI job processing: per-file read / extract /
  validate / merge, temp-file cleanup, total-failure handling, Redis store),
* `formatEventsForGoogle` and `createCalendarEvents` from
  `server/src/services/calendar.service.ts`,
* the `GET /api/preview` handler from `server/src/routes/preview.ts`.

Untrusted AI output and stored Redis payloads are modelled as a small JSON
universe.  External effects (filesystem, AI model, Google calendar API,
ambient clock/timezone of the server process) are modelled as explicit
parameters: the filesystem as the list of existing paths, the AI model as a
per-file behaviour, the calendar API as a per-index outcome, `Math.random`
as an injected sequence, and the server-local UTC offset of the JavaScript
`Date` runtime as an integer number of minutes (0 = a server running in UTC).
-/

/-- JSON values, the shape of untrusted data (AI model output, stored Redis
payloads) after `JSON.parse`. -/
inductive Json where
  | jnull : Json
  | jbool : Bool → Json
  | jnum : Int → Json
  | jstr : String → Json
  | jarr : List Json → Json
  | jobj : List (String × Json) → Json

/-- JavaScript property access `v[key]`: a field of an object, `undefined`
(modelled as `none`) otherwise. -/
def Json.get (v : Json) (key : String) : Option Json :=
  match v with
  | .jobj fields => (fields.find? (fun p => p.1 == key)).map Prod.snd
  | _ => none

/-- JavaScript truthiness of a JSON value. -/
def Json.truthy : Json → Bool
  | .jnull => false
  | .jbool b => b
  | .jnum n => n != 0
  | .jstr s => s != ""
  | .jarr _ => true
  | .jobj _ => true

/-- Truthiness of a possibly-`undefined` value. -/
def jsTruthy : Option Json → Bool
  | none => false
  | some v => v.truthy

/-- `^\d{4}-\d{2}-\d{2}$` — the anchored date regex of `dateStringSchema`
and of the worker's term-date capture. -/
def dateRegexTest (s : String) : Bool :=
  match s.toList with
  | [a, b, c, d, e, f, g, h, i, j] =>
      a.isDigit && b.isDigit && c.isDigit && d.isDigit && e == '-' &&
      f.isDigit && g.isDigit && h == '-' && i.isDigit && j.isDigit
  | _ => false

/-- `AM` or `PM`, case-insensitively, as a prefix of the remaining input
(the time regex of the schemas is unanchored, so trailing characters are
allowed). -/
def amPmHere : List Char → Bool
  | a :: m :: _ => (a == 'A' || a == 'a' || a == 'P' || a == 'p') && (m == 'M' || m == 'm')
  | _ => false

/-- `\s*(AM|PM)` at the current position. -/
def amPmAfterSpaces : List Char → Bool
  | [] => false
  | c :: rest => if c.isWhitespace then amPmAfterSpaces rest else amPmHere (c :: rest)

/-- `:\d{2}\s*(AM|PM)` at the current position. -/
def colonRest : List Char → Bool
  | ':' :: a :: b :: rest => a.isDigit && b.isDigit && amPmAfterSpaces rest
  | _ => false

/-- `\d{1,2}:\d{2}\s*(AM|PM)` anchored at the current position. -/
def timeMatchHere : List Char → Bool
  | c1 :: rest =>
      c1.isDigit &&
        (colonRest rest ||
          (match rest with
           | c2 :: r2 => c2.isDigit && colonRest r2
           | [] => false))
  | [] => false

/-- Unanchored scan for the time pattern. -/
def timeScan : List Char → Bool
  | [] => false
  | c :: rest => timeMatchHere (c :: rest) || timeScan rest

/-- The unanchored zod regex `/\d{1,2}:\d{2}\s*(AM|PM)/i` used by
`scheduleEventSchema` for `startTime` and `endTime`. -/
def timeRegexTest (s : String) : Bool :=
  timeScan s.toList

/-- `z.string()` on a JSON field: present and a string. -/
def fieldIsString (v : Option Json) : Bool :=
  match v with
  | some (.jstr _) => true
  | _ => false

/-- `z.string().nullable()` on a JSON field: present and a string or null. -/
def fieldIsNullableString (v : Option Json) : Bool :=
  match v with
  | some (.jstr _) => true
  | some .jnull => true
  | _ => false

/-- `z.string().optional()` on a JSON field: absent, or a string. -/
def fieldIsOptionalString (v : Option Json) : Bool :=
  match v with
  | none => true
  | some (.jstr _) => true
  | _ => false

/-- `scheduleEventSchema.parse(event)` succeeds: `courseCode` a string,
`courseName`/`sectionDetails`/`location` nullable strings, `days` an array
of strings with at least one element, `startTime`/`endTime` strings
matching the unanchored 12-hour time regex. -/
def validEventJson (e : Json) : Bool :=
  fieldIsString (e.get "courseCode") &&
  fieldIsNullableString (e.get "courseName") &&
  fieldIsNullableString (e.get "sectionDetails") &&
  (match e.get "days" with
   | some (.jarr l) => decide (l.length ≥ 1) && l.all (fun d => match d with | .jstr _ => true | _ => false)
   | _ => false) &&
  (match e.get "startTime" with
   | some (.jstr s) => timeRegexTest s
   | _ => false) &&
  (match e.get "endTime" with
   | some (.jstr s) => timeRegexTest s
   | _ => false) &&
  fieldIsNullableString (e.get "location")

/-- `dateStringSchema.nullable()` on a JSON field. -/
def fieldIsNullableDate (v : Option Json) : Bool :=
  match v with
  | some (.jstr s) => dateRegexTest s
  | some .jnull => true
  | _ => false

/-- `scheduleDataSchema.parse` succeeds on a JSON value. -/
def validScheduleDataJson (v : Json) : Bool :=
  fieldIsNullableDate (v.get "termStartDate") &&
  fieldIsNullableDate (v.get "termEndDate") &&
  (match v.get "scheduleEvents" with
   | some (.jarr l) => l.all validEventJson
   | _ => false)

/-- `processingWarningSchema.parse` succeeds: optional string `filename`,
required string `message`, optional string `field`, `value` is `z.any()`. -/
def validWarningJson (v : Json) : Bool :=
  fieldIsOptionalString (v.get "filename") &&
  fieldIsString (v.get "message") &&
  fieldIsOptionalString (v.get "field")

/-- `processingErrorSchema.parse` succeeds: required strings `filename` and
`error`. -/
def validErrorJson (v : Json) : Bool :=
  fieldIsString (v.get "filename") && fieldIsString (v.get "error")

/-- `previewResultSchema.parse` succeeds on a JSON value: `scheduleData`
valid, `processingWarnings`/`processingErrors` absent (defaulted) or arrays
of valid entries. -/
def validPreviewJson (v : Json) : Bool :=
  (match v.get "scheduleData" with
   | some sd => validScheduleDataJson sd
   | none => false) &&
  (match v.get "processingWarnings" with
   | none => true
   | some (.jarr l) => l.all validWarningJson
   | some _ => false) &&
  (match v.get "processingErrors" with
   | none => true
   | some (.jarr l) => l.all validErrorJson
   | some _ => false)

/-- `AM`/`PM` exactly at the end of the input (the regex of
`parseTimeToMinutes` is anchored with `$`); returns whether the period is
`PM`. -/
def parseAmPmEnd : List Char → Option Bool
  | [a, m] =>
      if (a == 'A' || a == 'a') && (m == 'M' || m == 'm') then some false
      else if (a == 'P' || a == 'p') && (m == 'M' || m == 'm') then some true
      else none
  | _ => none

/-- Greedy `\s*` before a pattern that cannot start with whitespace. -/
def skipSpaces : List Char → List Char
  | [] => []
  | c :: rest => if c.isWhitespace then skipSpaces rest else c :: rest

/-- Digit character to its value. -/
def digitVal (c : Char) : Nat := c.toNat - 48

/-- The `:(\d{2})\s*(AM|PM)$` tail of `parseTimeToMinutes`, given the
already-parsed hour value, with the range checks and 24-hour conversion of
`timeutils.ts`. -/
def afterHoursTail (h : Nat) (l : List Char) : Option Nat :=
  match l with
  | ':' :: m1 :: m2 :: rest =>
      if m1.isDigit && m2.isDigit then
        match parseAmPmEnd (skipSpaces rest) with
        | some isPm =>
            let minutes := digitVal m1 * 10 + digitVal m2
            if h < 1 || h > 12 || minutes > 59 then none
            else
              let hours24 :=
                if h == 12 then (if isPm then 12 else 0)
                else if isPm then h + 12 else h
              if hours24 > 23 then none
              else some (hours24 * 60 + minutes)
        | none => none
      else none
  | _ => none

/-- `parseTimeToMinutes` from `packages/common/src/timeutils.ts`: parses a
time string such as "09:00 AM" into minutes since midnight; `none` models
the `NaN` result for falsy input or input not matching the anchored regex
`^(\d{1,2}):(\d{2})\s*(AM|PM)$`. -/
def parseTimeToMinutes (s : String) : Option Nat :=
  if s == "" then none
  else
    match s.toList with
    | [] => none
    | c1 :: rest =>
        if c1.isDigit then
          match rest with
          | c2 :: r2 =>
              if c2.isDigit then afterHoursTail (digitVal c1 * 10 + digitVal c2) r2
              else afterHoursTail (digitVal c1) rest
          | [] => none
        else none

/-! ## The worker: `processAiJob` (src/unnamed/part_008)

The filesystem is the list of existing temp-file paths; `fs.readFile`
succeeds exactly when the path is present and `fs.unlink` removes it.  The
AI extraction client (`extractScheduleFromImage`) is an external call whose
behaviour per file is given as data: it either rejects with an error
message or resolves to an untrusted JSON value. -/

/-- A processing warning as assembled by the worker (the worker always
fills all four fields). -/
structure PWarning where
  filename : String
  message : String
  field : String
  value : Json

/-- A file-level processing error `{filename, error}`. -/
structure PError where
  filename : String
  error : String

/-- The combined schedule for one import, as assembled by the worker. -/
structure ScheduleData where
  termStartDate : Option String
  termEndDate : Option String
  scheduleEvents : List Json

/-- The unit stored for client consumption. -/
structure PreviewResult where
  scheduleData : ScheduleData
  processingWarnings : List PWarning
  processingErrors : List PError

/-- Behaviour of the external AI extraction call for one file. -/
inductive ExtractBehavior where
  | extThrow (msg : String)
  | extReturn (result : Json)

/-- One file of a job: temp path, original filename, and the behaviour of
the AI extraction on its contents. -/
structure FileSpec where
  path : String
  filename : String
  extract : ExtractBehavior

/-- A value stored in Redis: either well-formed JSON (as written by
`JSON.stringify`) or a corrupted string that `JSON.parse` rejects. -/
inductive RedisVal where
  | corrupt
  | jsonVal (j : Json)

/-- `redisClient.set key value`: overwrite any previous value. -/
def redisSet (store : List (String × RedisVal)) (k : String) (v : RedisVal) :
    List (String × RedisVal) :=
  (k, v) :: store.filter (fun p => p.1 != k)

/-- JSON encoding of an optional term date (absent encodes as `null`, as in
the worker's `combinedScheduleData`). -/
def encodeOptDate : Option String → Json
  | none => .jnull
  | some s => .jstr s

/-- JSON encoding of a worker warning. -/
def encodeWarning (w : PWarning) : Json :=
  .jobj [("filename", .jstr w.filename), ("message", .jstr w.message),
         ("field", .jstr w.field), ("value", w.value)]

/-- JSON encoding of a worker error. -/
def encodeError (e : PError) : Json :=
  .jobj [("filename", .jstr e.filename), ("error", .jstr e.error)]

/-- JSON encoding of the combined schedule data. -/
def encodeScheduleData (sd : ScheduleData) : Json :=
  .jobj [("termStartDate", encodeOptDate sd.termStartDate),
         ("termEndDate", encodeOptDate sd.termEndDate),
         ("scheduleEvents", .jarr sd.scheduleEvents)]

/-- `JSON.stringify(validatedPreviewResult)`, modelled at the JSON level. -/
def encodePreview (pv : PreviewResult) : Json :=
  .jobj [("scheduleData", encodeScheduleData pv.scheduleData),
         ("processingWarnings", .jarr (pv.processingWarnings.map encodeWarning)),
         ("processingErrors", .jarr (pv.processingErrors.map encodeError))]

/-- Message pushed when the AI result has no usable `scheduleEvents`
array. -/
def invalidFormatMsg : String :=
  "AI result format invalid (missing or invalid scheduleEvents array)"

/-- Warning message for a malformed term start date. -/
def startDateWarnMsg : String :=
  "Term start date from AI has invalid format (YYYY-MM-DD expected), ignoring value."

/-- Warning message for a malformed term end date. -/
def endDateWarnMsg : String :=
  "Term end date from AI has invalid format (YYYY-MM-DD expected), ignoring value."

/-- Message of the rejection of `fs.readFile` on a missing path. -/
def readErrorMsg : String := "ENOENT: no such file or directory"

/-- The worker's term-date capture for one field of one file's AI result:
`if (!termDate && aiResult.field && typeof aiResult.field === 'string')`
then either capture a value matching `^\d{4}-\d{2}-\d{2}$` or push a
warning for a malformed (non-empty string) value. -/
def captureTermDate (cur : Option String) (v : Option Json) (fname fieldName warnMsg : String) :
    Option String × List PWarning :=
  match cur with
  | some _ => (cur, [])
  | none =>
      match v with
      | some (.jstr s) =>
          if s == "" then (none, [])
          else if dateRegexTest s then (some s, [])
          else (none, [⟨fname, warnMsg, fieldName, .jstr s⟩])
      | _ => (none, [])

/-- The worker's per-job mutable state: accumulated validated events, term
dates, the count `filesProcessedSuccessfully`, file-level errors, warnings,
and the filesystem. -/
structure WState where
  events : List Json
  termStartDate : Option String
  termEndDate : Option String
  okCount : Nat
  errors : List PError
  warnings : List PWarning
  fs : List String

/-- One iteration of the worker's file loop: read the file, run extraction,
filter the candidate events through `scheduleEventSchema`, capture term
dates, record read/extraction throws and format-invalid results as
processing errors — and, in all cases (the `finally` block), unlink the
temp file. -/
def stepFile (st : WState) (f : FileSpec) : WState :=
  let removed := st.fs.filter (fun p => p != f.path)
  if st.fs.contains f.path then
    match f.extract with
    | .extThrow msg =>
        { st with
          errors := st.errors ++ [⟨f.filename, if msg == "" then "Unknown processing error" else msg⟩],
          fs := removed }
    | .extReturn aiResult =>
        if aiResult.truthy then
          match aiResult.get "scheduleEvents" with
          | some (.jarr l) =>
              let valids := l.filter validEventJson
              let startCap := captureTermDate st.termStartDate (aiResult.get "termStartDate")
                                f.filename "termStartDate" startDateWarnMsg
              let endCap := captureTermDate st.termEndDate (aiResult.get "termEndDate")
                                f.filename "termEndDate" endDateWarnMsg
              { st with
                events := st.events ++ valids,
                termStartDate := startCap.1,
                termEndDate := endCap.1,
                warnings := st.warnings ++ startCap.2 ++ endCap.2,
                okCount := st.okCount + 1,
                fs := removed }
          | _ =>
              { st with
                errors := st.errors ++ [⟨f.filename, invalidFormatMsg⟩],
                okCount := st.okCount + 1,
                fs := removed }
        else
          { st with
            errors := st.errors ++ [⟨f.filename, invalidFormatMsg⟩],
            okCount := st.okCount + 1,
            fs := removed }
  else
    { st with errors := st.errors ++ [⟨f.filename, readErrorMsg⟩], fs := removed }

/-- `scheduleDataSchema.parse(combinedScheduleData)` on the worker's
combined object (`null` term dates pass the nullable date schema). -/
def validCombined (sd : ScheduleData) : Bool :=
  (match sd.termStartDate with | none => true | some s => dateRegexTest s) &&
  (match sd.termEndDate with | none => true | some s => dateRegexTest s) &&
  sd.scheduleEvents.all validEventJson

/-- Outcome of one worker job: the promise either rejects with an error
message or resolves after storing the preview. -/
inductive WorkerOutcome where
  | jobFailed (message : String)
  | jobCompleted (preview : PreviewResult)

/-- Whether a worker outcome is a completion. -/
def WorkerOutcome.isCompleted : WorkerOutcome → Bool
  | .jobCompleted _ => true
  | .jobFailed _ => false

/-- The preview produced by a completed job, if any. -/
def WorkerOutcome.previewOf : WorkerOutcome → Option PreviewResult
  | .jobCompleted pv => some pv
  | .jobFailed _ => none

/-- Result of one run of `processAiJob`: the job outcome together with the
final filesystem and Redis contents. -/
structure WorkerRun where
  outcome : WorkerOutcome
  fs : List String
  redis : List (String × RedisVal)

/-- Initial worker state over a given filesystem. -/
def initWState (fs : List String) : WState :=
  { events := [], termStartDate := none, termEndDate := none,
    okCount := 0, errors := [], warnings := [], fs := fs }

/-- `processAiJob` from the worker service: fold the file loop, fail the
whole job when `filesProcessedSuccessfully === 0` over a non-empty file
list, otherwise validate the combined data and store the preview in Redis
under `preview:` + sessionId.  (The assembled `PreviewResult` always passes
`previewResultSchema.parse` by construction, and the source keeps the raw
value even if that parse failed, so that step is the identity here.) -/
def processAiJob (sessionId : String) (files : List FileSpec) (fs0 : List String)
    (redis : List (String × RedisVal)) : WorkerRun :=
  let st := files.foldl stepFile (initWState fs0)
  if st.okCount == 0 && files.length > 0 then
    { outcome := .jobFailed ("AI processing failed for all " ++ toString files.length ++ " files."),
      fs := st.fs, redis := redis }
  else
    let combined : ScheduleData :=
      { termStartDate := st.termStartDate, termEndDate := st.termEndDate,
        scheduleEvents := st.events }
    if validCombined combined then
      let pv : PreviewResult :=
        { scheduleData := combined, processingWarnings := st.warnings,
          processingErrors := st.errors }
      { outcome := .jobCompleted pv, fs := st.fs,
        redis := redisSet redis ("preview:" ++ sessionId) (.jsonVal (encodePreview pv)) }
    else
      { outcome := .jobFailed "Combined schedule data is invalid after processing",
        fs := st.fs, redis := redis }

/-! ## Calendar event formatter (`server/src/services/calendar.service.ts`)

JavaScript `Date` arithmetic is modelled with day numbers (days since
1970-01-01) and instants in minutes since the UTC epoch.  The ambient
timezone of the server process enters as `serverOffset` (minutes east of
UTC; `0` models a server running in UTC): `new Date("Y-M-DT00:00:00")` is
the instant of local midnight, and `toISOString` converts back to UTC.
The model covers calendar dates from 1970 onward. -/

/-- Gregorian leap year. -/
def isLeapYear (y : Nat) : Bool :=
  (y % 4 == 0 && y % 100 != 0) || y % 400 == 0

/-- Days in a month. -/
def daysInMonth (y m : Nat) : Nat :=
  if m == 2 then (if isLeapYear y then 29 else 28)
  else if m == 4 || m == 6 || m == 9 || m == 11 then 30
  else 31

/-- Days in a year. -/
def daysInYear (y : Nat) : Nat := if isLeapYear y then 366 else 365

/-- Days strictly before year `y`, counted from 1970-01-01 (`y ≥ 1970`). -/
def daysBeforeYear (y : Nat) : Nat :=
  ((List.range (y - 1970)).map (fun i => daysInYear (1970 + i))).sum

/-- Days strictly before month `m` within year `y`. -/
def daysBeforeMonth (y m : Nat) : Nat :=
  ((List.range (m - 1)).map (fun i => daysInMonth y (i + 1))).sum

/-- Day number (days since 1970-01-01) of a calendar date. -/
def dayNumberOf (y m d : Nat) : Nat :=
  daysBeforeYear y + daysBeforeMonth y m + (d - 1)

/-- JavaScript `getDay()` of the date with the given day number
(1970-01-01 was a Thursday; 0 = Sunday). -/
def weekdayOf (dn : Nat) : Nat := (dn + 4) % 7

/-- Recover the year from a day number (fuel-driven; fuel bounds the number
of years scanned). -/
def yearOfDay : Nat → Nat → Nat → Nat × Nat
  | 0, y, n => (y, n)
  | fuel + 1, y, n => if n < daysInYear y then (y, n) else yearOfDay fuel (y + 1) (n - daysInYear y)

/-- Recover the month from a day offset within a year (fuel-driven). -/
def monthOfDay : Nat → Nat → Nat → Nat → Nat × Nat
  | 0, _, m, n => (m, n)
  | fuel + 1, y, m, n => if n < daysInMonth y m then (m, n) else monthOfDay fuel y (m + 1) (n - daysInMonth y m)

/-- Calendar date `(y, m, d)` of a day number. -/
def civilFromDayNumber (n : Nat) : Nat × Nat × Nat :=
  let yr := yearOfDay 6000 1970 n
  let mr := monthOfDay 12 yr.1 1 yr.2
  (yr.1, mr.1, mr.2 + 1)

/-- Two-digit zero-padded decimal. -/
def pad2 (n : Nat) : String := if n < 10 then "0" ++ toString n else toString n

/-- Four-digit zero-padded decimal. -/
def pad4 (n : Nat) : String :=
  if n < 10 then "000" ++ toString n
  else if n < 100 then "00" ++ toString n
  else if n < 1000 then "0" ++ toString n
  else toString n

/-- `YYYYMMDD` of a day number (the date part of `toISOString()` with the
dashes removed, as built for the recurrence `UNTIL`). -/
def yyyymmddOf (dn : Nat) : String :=
  let c := civilFromDayNumber dn
  pad4 c.1 ++ pad2 c.2.1 ++ pad2 c.2.2

/-- `YYYY-MM-DD` of a day number. -/
def isoDateOf (dn : Nat) : String :=
  let c := civilFromDayNumber dn
  pad4 c.1 ++ "-" ++ pad2 c.2.1 ++ "-" ++ pad2 c.2.2

/-- Parse a `YYYY-MM-DD` string to a day number; `none` models an invalid
`Date` (`isNaN(getTime())`).  Dates before 1970 are outside the model. -/
def parseDateYMD (s : String) : Option Nat :=
  match s.toList with
  | [a, b, c, d, dash1, e, f, dash2, g, h] =>
      if a.isDigit && b.isDigit && c.isDigit && d.isDigit && dash1 == '-' &&
         e.isDigit && f.isDigit && dash2 == '-' && g.isDigit && h.isDigit then
        let y := digitVal a * 1000 + digitVal b * 100 + digitVal c * 10 + digitVal d
        let m := digitVal e * 10 + digitVal f
        let day := digitVal g * 10 + digitVal h
        if 1970 ≤ y && 1 ≤ m && m ≤ 12 && 1 ≤ day && day ≤ daysInMonth y m then
          some (dayNumberOf y m day)
        else none
      else none
  | _ => none

/-- The `dayNameToRRULE` table, in source order (the order matters for
`Object.keys(...).indexOf`). -/
def dayNameToRRULE : List (String × String) :=
  [("monday", "MO"), ("tuesday", "TU"), ("wednesday", "WE"), ("thursday", "TH"),
   ("friday", "FR"), ("saturday", "SA"), ("sunday", "SU")]

/-- `dayNameToRRULE[d]` as an optional value. -/
def rruleOf (d : String) : Option String :=
  (dayNameToRRULE.find? (fun p => p.1 == d)).map Prod.snd

/-- `Object.keys(dayNameToRRULE)`. -/
def rruleDayKeys : List String := dayNameToRRULE.map Prod.fst

/-- The shared 11-color palette `GOOGLE_COLOR_IDS`. -/
def GOOGLE_COLOR_IDS : List String :=
  ["1", "2", "3", "4", "5", "6", "7", "8", "9", "10", "11"]

/-- A schedule event as typed in `calendar.service.ts` (nullable fields as
options). -/
structure SEvent where
  courseCode : String
  courseName : Option String
  sectionDetails : Option String
  days : List String
  startTime : String
  endTime : String
  location : Option String

/-- The formatter's input schedule. -/
structure CalScheduleData where
  termStartDate : Option String
  termEndDate : Option String
  scheduleEvents : List SEvent

/-- A provider-ready calendar event descriptor (the fields of the
`calendar_v3.Schema$Event` object the formatter builds). -/
structure GEvent where
  summary : String
  location : Option String
  description : String
  startDateTime : String
  endDateTime : String
  timeZone : String
  recurrence : List String
  colorId : Option String

/-- Why one event was skipped (each constructor is one logged skip branch
of the per-event `forEach` body, in source order). -/
inductive SkipReason where
  | noDays
  | missingTimes
  | invalidTimeDay
  | startGeEnd
  | noFirstOccurrence
  | afterTermEnd

/-- Outcome of the per-event body: an emitted descriptor or a logged
skip. -/
inductive EventStep where
  | emitted (e : GEvent)
  | skipped (reason : SkipReason)

/-- The color-assignment state scoped to one formatting call:
`courseColorMap`, `availableColors`, `fallbackColorIndex`, plus a counter
of `Math.random()` draws consumed so far. -/
structure ColorState where
  cmap : List (String × String)
  avail : List String
  fb : Nat
  rk : Nat

/-- Fresh color state at the start of one formatting call. -/
def initColorState : ColorState :=
  { cmap := [], avail := GOOGLE_COLOR_IDS, fb := 0, rk := 0 }

/-- `courseColorMap.get`/`has`. -/
def mapLookup (m : List (String × String)) (k : String) : Option String :=
  (m.find? (fun p => p.1 == k)).map Prod.snd

/-- The color-assignment block: a remembered color for a seen `courseCode`,
else a random splice from `availableColors` while non-empty, else
deterministic cycling through `GOOGLE_COLOR_IDS` via
`fallbackColorIndex`; no color for a falsy `courseCode`.  `r` is the
injected `Math.random` source: draw `k` picks index `r k % len`. -/
def assignColor (r : Nat → Nat) (cs : ColorState) (code : String) :
    Option String × ColorState :=
  if code != "" then
    match mapLookup cs.cmap code with
    | some c => (some c, cs)
    | none =>
        if cs.avail.length > 0 then
          let i := r cs.rk % cs.avail.length
          let c := cs.avail.getD i ""
          (some c, { cmap := (code, c) :: cs.cmap, avail := cs.avail.eraseIdx i,
                     fb := cs.fb, rk := cs.rk + 1 })
        else
          let c := GOOGLE_COLOR_IDS.getD (cs.fb % GOOGLE_COLOR_IDS.length) ""
          (some c, { cmap := (code, c) :: cs.cmap, avail := cs.avail,
                     fb := cs.fb + 1, rk := cs.rk })
  else (none, cs)

/-- Per-call context precomputed before the event loop. -/
structure FmtCtx where
  termStartDn : Nat
  curIdx : Nat
  untilInstant : Int
  rruleUntilStr : String
  serverOffset : Int
  tzName : String
  tzOffset : Int

/-- The first-occurrence offset search: starting from `daysToAdd = 7`, take
the minimum over the event's weekdays of `indexOf - currentDayIndex`,
wrapped by `+7` when negative. -/
def daysToAddFor (ds : List String) (cur : Nat) : Int :=
  ds.foldl
    (fun acc d =>
      let t : Int := rruleDayKeys.indexOf d
      let diff0 := t - (cur : Int)
      let diff := if diff0 < 0 then diff0 + 7 else diff0
      min acc diff)
    7

/-- JavaScript `toLowerCase()` on the ASCII weekday names (defined
per-character so that it evaluates inside the kernel). -/
def jsToLower (s : String) : String := String.mk (s.data.map Char.toLower)

/-- Data carried from the guard section of the per-event body to the
emission section. -/
structure EmitData where
  dow : List String
  startMinutes : Nat
  endMinutes : Nat
  startInstant : Int
  endInstant : Int

/-- The guard section of the per-event body: all skip checks in source
order, then the first-occurrence and datetime computation. -/
def preprocess (ctx : FmtCtx) (ev : SEvent) : Except SkipReason EmitData :=
  if ev.days.length == 0 then .error .noDays
  else if ev.startTime == "" || ev.endTime == "" then .error .missingTimes
  else
    let dow := (ev.days.map jsToLower).filter (fun d => (rruleOf d).isSome)
    match parseTimeToMinutes ev.startTime, parseTimeToMinutes ev.endTime with
    | some sm, some em =>
        if dow.length == 0 then .error .invalidTimeDay
        else if sm ≥ em then .error .startGeEnd
        else
          let dta := daysToAddFor dow ctx.curIdx
          if dta == 7 then .error .noFirstOccurrence
          else
            let fo := (ctx.termStartDn : Int) + dta
            let si := fo * 1440 + (sm : Int) - ctx.serverOffset
            let ei := fo * 1440 + (em : Int) - ctx.serverOffset
            if si ≥ ctx.untilInstant then .error .afterTermEnd
            else .ok { dow := dow, startMinutes := sm, endMinutes := em,
                       startInstant := si, endInstant := ei }
    | _, _ => .error .invalidTimeDay

/-- `null`-to-`'N/A'` fallback used in the description template. -/
def orNA : Option String → String
  | some s => if s != "" then s else "N/A"
  | none => "N/A"

/-- date-fns-tz `format(date, "yyyy-MM-dd'T'HH:mm:ssXXX", { timeZone })`:
render the instant as wall-clock time in the given fixed offset, with `XXX`
printing `Z` for UTC. -/
def fmtLocal (inst : Int) (offset : Int) : String :=
  let lmin := inst + offset
  let dn := (lmin.fdiv 1440).toNat
  let rem := (lmin.fmod 1440).toNat
  let suffix :=
    if offset == 0 then "Z"
    else if offset > 0 then "+" ++ pad2 (offset.toNat / 60) ++ ":" ++ pad2 (offset.toNat % 60)
    else "-" ++ pad2 ((-offset).toNat / 60) ++ ":" ++ pad2 ((-offset).toNat % 60)
  isoDateOf dn ++ "T" ++ pad2 (rem / 60) ++ ":" ++ pad2 (rem % 60) ++ ":00" ++ suffix

/-- The emission section of the per-event body: summary, description,
timezone-qualified datetimes, recurrence rule, reminders, color. -/
def buildEvent (ctx : FmtCtx) (ev : SEvent) (d : EmitData) (col : Option String) : GEvent :=
  let rruleDays := String.intercalate "," (d.dow.filterMap rruleOf)
  { summary :=
      ev.courseCode ++
      (match ev.sectionDetails with
       | some s => if s != "" then " (" ++ s ++ ")" else ""
       | none => "") ++
      (match ev.courseName with
       | some n => if n != "" then " - " ++ n else ""
       | none => ""),
    location := ev.location,
    description :=
      "Course: " ++ (if ev.courseCode != "" then ev.courseCode else "N/A") ++
      "\nSection: " ++ orNA ev.sectionDetails ++
      "\nName: " ++ orNA ev.courseName,
    startDateTime := fmtLocal d.startInstant ctx.tzOffset,
    endDateTime := fmtLocal d.endInstant ctx.tzOffset,
    timeZone := ctx.tzName,
    recurrence := ["RRULE:FREQ=WEEKLY;BYDAY=" ++ rruleDays ++ ";UNTIL=" ++ ctx.rruleUntilStr],
    colorId := col }

/-- The whole per-event body. -/
def processEvent (r : Nat → Nat) (ctx : FmtCtx) (cs : ColorState) (ev : SEvent) :
    EventStep × ColorState :=
  match preprocess ctx ev with
  | .error reason => (.skipped reason, cs)
  | .ok d =>
      let ac := assignColor r cs ev.courseCode
      (.emitted (buildEvent ctx ev d ac.1), ac.2)

/-- The event loop, recording for each source event its step outcome (the
source pushes only emitted descriptors; the pairing is ghost bookkeeping
used by the theorems). -/
def formatLoop (r : Nat → Nat) (ctx : FmtCtx) (cs : ColorState) :
    List SEvent → List (SEvent × EventStep) × ColorState
  | [] => ([], cs)
  | ev :: rest =>
      let pe := processEvent r ctx cs ev
      let tail := formatLoop r ctx pe.2 rest
      ((ev, pe.1) :: tail.1, tail.2)

/-- The emitted descriptors of a recorded loop run. -/
def emittedOf (pairs : List (SEvent × EventStep)) : List GEvent :=
  pairs.filterMap (fun p => match p.2 with | .emitted e => some e | .skipped _ => none)

/-- The distinguishable errors thrown by the formatter. -/
inductive FmtError where
  | invalidTimeZone
  | missingTermDates
  | invalidTermDateFormat

/-- A user timezone identifier together with its semantics: whether
`Intl.DateTimeFormat` accepts it, and its fixed UTC offset in minutes. -/
structure TimeZoneSpec where
  name : String
  valid : Bool
  offset : Int

/-- `formatEventsForGoogle`: validate the timezone, require both term
dates, parse them, build the exclusive `UNTIL` bound one day past the term
end (local midnight converted to UTC by `toISOString`), compute the
current-day index from `getDay()`, then run the per-event loop with a
fresh color state. -/
def formatEventsForGoogle (sd : CalScheduleData) (tz : TimeZoneSpec)
    (serverOffset : Int) (r : Nat → Nat) : Except FmtError (List GEvent) :=
  if !tz.valid then .error .invalidTimeZone
  else
    let tsdStr := sd.termStartDate.getD ""
    let tendStr := sd.termEndDate.getD ""
    if tsdStr == "" || tendStr == "" then .error .missingTermDates
    else
      match parseDateYMD tsdStr, parseDateYMD tendStr with
      | some sDn, some eDn =>
          let untilInstant := ((eDn : Int) + 1) * 1440 - serverOffset
          let rruleUntilStr := yyyymmddOf (untilInstant.fdiv 1440).toNat ++ "T000000Z"
          let wd := weekdayOf sDn
          let cur := if wd == 0 then 6 else wd - 1
          let ctx : FmtCtx :=
            { termStartDn := sDn, curIdx := cur, untilInstant := untilInstant,
              rruleUntilStr := rruleUntilStr, serverOffset := serverOffset,
              tzName := tz.name, tzOffset := tz.offset }
          .ok (emittedOf (formatLoop r ctx initColorState sd.scheduleEvents).1)
      | _, _ => .error .invalidTermDateFormat

/-! ## Calendar event submitter (`createCalendarEvents`) -/

/-- Behaviour of the external `calendar.events.insert` call for one index:
success, or failure with the provider's message chain
(`error?.response?.data?.error?.message || error?.message`, `none`/empty
when all falsy) and optional HTTP status. -/
inductive InsertOutcome where
  | insertOk
  | insertFail (providerMsg : Option String) (status : Option Nat)

/-- `errorMessage` as computed in the catch block. -/
def insertionErrorMsg (m : Option String) : String :=
  match m with
  | some s => if s != "" then s else "Unknown error during event insertion"
  | none => "Unknown error during event insertion"

/-- One aggregated submission failure. -/
structure SubmitError where
  eventSummary : String
  error : String
  status : Option Nat

/-- The aggregated submission result. -/
structure SubmitResult where
  successCount : Nat
  errors : List SubmitError

/-- The error entry pushed for a rejected insertion at a given index:
`reason.eventSummary || events[index]?.summary || 'Event <index>'` and
`reason.error || 'Unknown failure reason'`. -/
def submitErrorEntry (i : Nat) (e : GEvent) (m : Option String) (s : Option Nat) : SubmitError :=
  { eventSummary := if e.summary != "" then e.summary else "Event " ++ toString i,
    error :=
      (let em := insertionErrorMsg m
       if em != "" then em else "Unknown failure reason"),
    status := s }

/-- `createCalendarEvents`: submit every descriptor (the p-limit
concurrency cap does not change which calls are attempted nor the
`Promise.allSettled` result order), then aggregate fulfilled results into
`successCount` and rejections into `errors` in input order. -/
def createCalendarEvents (events : List GEvent) (api : Nat → InsertOutcome) : SubmitResult :=
  { successCount :=
      (events.enum.filter (fun p => match api p.1 with | .insertOk => true | .insertFail _ _ => false)).length,
    errors :=
      events.enum.filterMap (fun p =>
        match api p.1 with
        | .insertOk => none
        | .insertFail m s => some (submitErrorEntry p.1 p.2 m s)) }

/-! ## Preview retrieval (`server/src/routes/preview.ts`, GET /api/preview) -/

/-- `redisClient.get`. -/
def redisGet (store : List (String × RedisVal)) (k : String) : Option RedisVal :=
  (store.find? (fun p => p.1 == k)).map Prod.snd

/-- `redisClient.del`. -/
def redisDel (store : List (String × RedisVal)) (k : String) : List (String × RedisVal) :=
  store.filter (fun p => p.1 != k)

/-- The handler's reply: 401, 404, the 500 read-failure reply (carrying no
preview data), or 200 with the validated preview value. -/
inductive PreviewResponse where
  | unauthorized
  | notFound
  | readFailure
  | okPreview (previewResult : Json)

/-- The GET /api/preview handler: after the session/token check, read the
stored value; absent gives 404; a value that fails `JSON.parse` or
`previewResultSchema.safeParse` is deleted and reported as a read failure;
otherwise the validated value is returned. -/
def previewGet (authOk : Bool) (sessionId : String) (redis : List (String × RedisVal)) :
    PreviewResponse × List (String × RedisVal) :=
  if !authOk then (.unauthorized, redis)
  else
    let key := "preview:" ++ sessionId
    match redisGet redis key with
    | none => (.notFound, redis)
    | some .corrupt => (.readFailure, redisDel redis key)
    | some (.jsonVal j) =>
        if validPreviewJson j then (.okPreview j, redis)
        else (.readFailure, redisDel redis key)

/-! ## Lemmas about the worker's file loop -/

/-- Every branch of the file-loop body, success or failure, ends in the
`finally` unlink of the file's own temp path. -/
theorem stepFile_fs (st : WState) (f : FileSpec) :
    (stepFile st f).fs = st.fs.filter (fun p => p != f.path) := by
  unfold stepFile
  rcases f with ⟨pa, fn, ext⟩
  cases ext <;> dsimp only <;> (repeat' split) <;> rfl

/-- The file loop only shrinks the filesystem. -/
theorem foldl_stepFile_fs_subset (files : List FileSpec) (st : WState) :
    ∀ q, q ∈ (files.foldl stepFile st).fs → q ∈ st.fs := by
  induction files generalizing st with
  | nil => intro q hq; exact hq
  | cons f rest ih =>
      intro q hq
      have h1 := ih (stepFile st f) q hq
      rw [stepFile_fs] at h1
      exact (List.mem_filter.mp h1).1

/-- After the loop, no temp path listed in the job survives. -/
theorem foldl_stepFile_fs_removed (files : List FileSpec) (st : WState)
    (p : String) (hp : p ∈ files.map FileSpec.path) :
    p ∉ (files.foldl stepFile st).fs := by
  induction files generalizing st with
  | nil => cases hp
  | cons f rest ih =>
      rcases List.mem_cons.mp hp with heq | hmem
      · intro hin
        have h1 := foldl_stepFile_fs_subset rest (stepFile st f) p hin
        rw [stepFile_fs] at h1
        have h2 := (List.mem_filter.mp h1).2
        simp only [heq] at h2
        simp at h2
      · exact ih (stepFile st f) hmem

/-- `processAiJob` returns the loop's final filesystem on every path. -/
theorem processAiJob_fs (sid : String) (files : List FileSpec) (fs0 : List String)
    (redis : List (String × RedisVal)) :
    (processAiJob sid files fs0 redis).fs = (files.foldl stepFile (initWState fs0)).fs := by
  unfold processAiJob
  dsimp only
  split
  · rfl
  · split <;> rfl

/-- C8: For every file index i in a job, processAiJob unlinks
tempFilePaths[i] after processing that file on every execution path —
whether reading the file, extraction, or validation succeeded or threw —
so the temp files listed in the job do not survive their own iteration
regardless of per-file outcome. -/
theorem c8_temp_files_unlinked (sid : String) (files : List FileSpec)
    (fs0 : List String) (redis : List (String × RedisVal)) (p : String)
    (hp : p ∈ files.map FileSpec.path) :
    p ∉ (processAiJob sid files fs0 redis).fs := by
  rw [processAiJob_fs]
  exact foldl_stepFile_fs_removed files (initWState fs0) p hp

/-- Witness for C8 at a concrete two-file job in which one file's
extraction throws and the other returns an invalid result. -/
theorem c8_temp_files_unlinked_witness :
    "/tmp/a" ∉ (processAiJob "sess"
      [⟨"/tmp/a", "a.png", .extThrow "boom"⟩,
       ⟨"/tmp/b", "b.png", .extReturn .jnull⟩] ["/tmp/a", "/tmp/b"] []).fs :=
  c8_temp_files_unlinked "sess" _ _ _ "/tmp/a" (by simp)

/-! ## Preview retrieval -/

/-- A stored value is malformed when `JSON.parse` rejects it or
`previewResultSchema.safeParse` fails on the parsed value. -/
def malformedStored : RedisVal → Bool
  | .corrupt => true
  | .jsonVal j => !(validPreviewJson j)

/-- Deleting a key removes its binding. -/
theorem redisGet_redisDel (store : List (String × RedisVal)) (k : String) :
    redisGet (redisDel store k) k = none := by
  unfold redisGet redisDel
  have h : List.find? (fun p => p.1 == k) (store.filter (fun p => p.1 != k)) = none := by
    rw [List.find?_eq_none]
    intro p hp
    have h2 := (List.mem_filter.mp hp).2
    simpa using h2
  rw [h]
  rfl

/-- C9: for every session whose stored preview value is malformed (not
valid JSON, or failing re-validation against the PreviewResult schema on
read), the authorized preview get operation deletes the corrupted entry
and reports a read failure (the 500 reply carries no preview data), and
afterwards the key is unbound. -/
theorem c9_malformed_preview_deleted (sessionId : String)
    (redis : List (String × RedisVal)) (v : RedisVal)
    (hget : redisGet redis ("preview:" ++ sessionId) = some v)
    (hbad : malformedStored v = true) :
    previewGet true sessionId redis =
      (.readFailure, redisDel redis ("preview:" ++ sessionId)) ∧
    redisGet (previewGet true sessionId redis).2 ("preview:" ++ sessionId) = none := by
  have hmain : previewGet true sessionId redis =
      (.readFailure, redisDel redis ("preview:" ++ sessionId)) := by
    unfold previewGet
    dsimp only
    rw [hget]
    cases v with
    | corrupt => rfl
    | jsonVal j =>
        have hv : validPreviewJson j = false := by
          simpa [malformedStored] using hbad
        simp [hv]
  refine ⟨hmain, ?_⟩
  rw [hmain]
  exact redisGet_redisDel redis ("preview:" ++ sessionId)

/-- Witness for C9: a stored entry whose JSON fails the PreviewResult
schema is deleted and reported as a read failure. -/
theorem c9_malformed_preview_deleted_witness :
    previewGet true "s1" [("preview:s1", .jsonVal (.jstr "garbage"))] =
      (.readFailure, redisDel [("preview:s1", .jsonVal (.jstr "garbage"))] "preview:s1") ∧
    redisGet (previewGet true "s1" [("preview:s1", .jsonVal (.jstr "garbage"))]).2 "preview:s1" = none :=
  c9_malformed_preview_deleted "s1" _ _ rfl rfl

/-! ## Submission aggregation -/

/-- Whether an insertion outcome is a fulfilled promise. -/
def InsertOutcome.isOk : InsertOutcome → Bool
  | .insertOk => true
  | .insertFail _ _ => false

/-- Counting lemma: when a filter and a filterMap are pointwise
complementary, their lengths add up to the whole list. -/
theorem length_filter_add_length_filterMap {α β : Type} (l : List α)
    (p : α → Bool) (g : α → Option β)
    (h : ∀ a ∈ l, (g a).isSome = !(p a)) :
    (l.filter p).length + (l.filterMap g).length = l.length := by
  induction l with
  | nil => rfl
  | cons a rest ih =>
      have ha := h a (List.mem_cons_self a rest)
      have hrest : ∀ b ∈ rest, (g b).isSome = !(p b) :=
        fun b hb => h b (List.mem_cons_of_mem a hb)
      have hr := ih hrest
      by_cases hp : p a = true
      · have hg : g a = none := by
          rcases hga : g a with _ | x
          · rfl
          · rw [hga] at ha; simp [hp] at ha
        simp only [List.filter_cons, List.filterMap_cons, hp, hg, if_true, List.length_cons]
        omega
      · have hp2 : p a = false := by simpa using hp
        rcases hga : g a with _ | x
        · rw [hga] at ha; simp [hp2] at ha
        · simp only [List.filter_cons, List.filterMap_cons, hp2, hga, if_false, Bool.false_eq_true,
            List.length_cons]
          omega

/-- The computed insertion error message is never empty (so the
`reason.error || 'Unknown failure reason'` fallback is inert). -/
theorem insertionErrorMsg_ne_empty (m : Option String) :
    (insertionErrorMsg m != "") = true := by
  cases m with
  | none => rfl
  | some s =>
      unfold insertionErrorMsg
      by_cases h : s = ""
      · simp [h]
      · simp [h]

/-- Filtering a projected predicate through `enum` counts the same as
filtering the index range. -/
theorem enum_filter_fst_length {α : Type} (l : List α) (q : Nat → Bool) :
    (l.enum.filter (fun p => q p.1)).length = ((List.range l.length).filter q).length := by
  have h1 : (l.enum.map Prod.fst).filter q = (l.enum.filter (q ∘ Prod.fst)).map Prod.fst :=
    List.filter_map Prod.fst l.enum
  have h2 : ((l.enum.map Prod.fst).filter q).length = (l.enum.filter (q ∘ Prod.fst)).length := by
    rw [h1, List.length_map]
  rw [List.enum_map_fst] at h2
  have h3 : l.enum.filter (q ∘ Prod.fst) = l.enum.filter (fun p => q p.1) := rfl
  rw [h3] at h2
  omega

/-- C3: for every input batch of K event descriptors and any mix of
per-event success and failure of the external calendar API,
createCalendarEvents returns a result with successCount + errors.length =
K, accounting for every descriptor exactly once; every descriptor is
attempted (the per-index outcome is consulted at every index, and each
index lands in exactly one bucket), and each recorded error carries the
event's summary (with the `Event <i>` fallback only for an empty summary),
a non-empty error message, and the provider status code when available. -/
theorem c3_submission_completeness (events : List GEvent) (api : Nat → InsertOutcome) :
    (createCalendarEvents events api).successCount + (createCalendarEvents events api).errors.length
        = events.length ∧
    (createCalendarEvents events api).successCount
        = ((List.range events.length).filter (fun i => (api i).isOk)).length ∧
    (createCalendarEvents events api).errors
        = events.enum.filterMap (fun p =>
            match api p.1 with
            | .insertOk => none
            | .insertFail m s => some (submitErrorEntry p.1 p.2 m s)) ∧
    (∀ i e m s, events.get? i = some e → api i = .insertFail m s → e.summary ≠ "" →
      ({ eventSummary := e.summary, error := insertionErrorMsg m, status := s } : SubmitError)
        ∈ (createCalendarEvents events api).errors) := by
  refine ⟨?_, ?_, rfl, ?_⟩
  · have hcomp : ∀ p ∈ events.enum,
        ((fun (q : Nat × GEvent) => match api q.1 with
           | .insertOk => none
           | .insertFail m s => some (submitErrorEntry q.1 q.2 m s)) p).isSome =
        !((fun (q : Nat × GEvent) => match api q.1 with
           | .insertOk => true
           | .insertFail _ _ => false) p) := by
      intro p _
      cases h : api p.1 <;> simp [h]
    have h := length_filter_add_length_filterMap events.enum _ _ hcomp
    simpa [createCalendarEvents, List.enum_length] using h
  · show (events.enum.filter _).length = _
    have h := enum_filter_fst_length events (fun i => (api i).isOk)
    have heq : (events.enum.filter (fun p => (api p.1).isOk)) =
        (events.enum.filter (fun p => match api p.1 with
          | .insertOk => true | .insertFail _ _ => false)) := rfl
    rw [heq] at h
    exact h
  · intro i e m s hget hapi hs
    show _ ∈ events.enum.filterMap _
    apply List.mem_filterMap.mpr
    refine ⟨(i, e), ?_, ?_⟩
    · exact List.mem_enum_iff_get?.mpr hget
    · have hs2 : (e.summary != "") = true := by simpa using hs
      simp [hapi, submitErrorEntry, hs2, insertionErrorMsg_ne_empty m]

/-- Witness for C3's membership conjunct at a concrete batch with one
failing insertion. -/
theorem c3_submission_completeness_witness :
    ({ eventSummary := "B", error := insertionErrorMsg (some "quota"), status := some 403 } : SubmitError)
      ∈ (createCalendarEvents
          [{ summary := "A", location := none, description := "", startDateTime := "",
             endDateTime := "", timeZone := "UTC", recurrence := [], colorId := none },
           { summary := "B", location := none, description := "", startDateTime := "",
             endDateTime := "", timeZone := "UTC", recurrence := [], colorId := none }]
          (fun i => if i == 1 then .insertFail (some "quota") (some 403) else .insertOk)).errors :=
  (c3_submission_completeness _ _).2.2.2 1
    { summary := "B", location := none, description := "", startDateTime := "",
      endDateTime := "", timeZone := "UTC", recurrence := [], colorId := none }
    (some "quota") (some 403) rfl rfl (by decide)

/-! ## First-occurrence computation -/

/-- The per-weekday offset candidate inside the `daysToAdd` loop. -/
def dayDiff (cur : Nat) (d : String) : Int :=
  let t : Int := rruleDayKeys.indexOf d
  let diff0 := t - (cur : Int)
  if diff0 < 0 then diff0 + 7 else diff0

/-- The `daysToAdd` loop is the fold of `dayDiff` under `min`. -/
theorem daysToAddFor_eq (ds : List String) (cur : Nat) :
    daysToAddFor ds cur = ds.foldl (fun a d => min a (dayDiff cur d)) 7 := rfl

/-- A weekday with an RRULE token is one of the seven keys. -/
theorem rruleOf_isSome_mem (d : String) (h : (rruleOf d).isSome = true) :
    d ∈ rruleDayKeys := by
  unfold rruleOf at h
  have h2 : (List.find? (fun p => p.1 == d) dayNameToRRULE).isSome = true := by
    cases hf : List.find? (fun p => p.1 == d) dayNameToRRULE with
    | none => rw [hf] at h; simp at h
    | some v => rfl
  obtain ⟨pair, hmem, hp⟩ := List.find?_isSome.mp h2
  have he : pair.1 = d := by simpa using hp
  exact he ▸ List.mem_map_of_mem Prod.fst hmem

/-- Each candidate offset of a recognised weekday is at most 6. -/
theorem dayDiff_le_six (cur : Nat) (d : String) (h : (rruleOf d).isSome = true) :
    dayDiff cur d ≤ 6 := by
  have hmem := rruleOf_isSome_mem d h
  have hlt : rruleDayKeys.indexOf d < rruleDayKeys.length := List.indexOf_lt_length.mpr hmem
  have hlen : rruleDayKeys.length = 7 := rfl
  rw [hlen] at hlt
  unfold dayDiff
  have ht : (rruleDayKeys.indexOf d : Int) ≤ 6 := by exact_mod_cast Nat.lt_succ_iff.mp hlt
  have hcur : (0 : Int) ≤ (cur : Int) := Int.ofNat_nonneg cur
  dsimp only
  split <;> omega

/-- A min-fold never exceeds its accumulator. -/
theorem foldl_min_le_acc (ds : List String) (cur : Nat) (acc : Int) :
    ds.foldl (fun a d => min a (dayDiff cur d)) acc ≤ acc := by
  induction ds generalizing acc with
  | nil => exact le_refl acc
  | cons d rest ih =>
      calc rest.foldl (fun a d => min a (dayDiff cur d)) (min acc (dayDiff cur d))
          ≤ min acc (dayDiff cur d) := ih (min acc (dayDiff cur d))
        _ ≤ acc := min_le_left _ _

/-- Over a non-empty list of recognised weekdays, the computed `daysToAdd`
is at most 6 for any current-day index, so the `daysToAdd === 7` error
branch cannot fire. -/
theorem daysToAddFor_le_six (ds : List String) (cur : Nat) (hne : ds ≠ [])
    (hall : ∀ d ∈ ds, (rruleOf d).isSome = true) :
    daysToAddFor ds cur ≤ 6 := by
  rcases ds with _ | ⟨d, rest⟩
  · exact absurd rfl hne
  · rw [daysToAddFor_eq]
    have h1 : rest.foldl (fun a x => min a (dayDiff cur x)) (min 7 (dayDiff cur d)) ≤
        min 7 (dayDiff cur d) := foldl_min_le_acc rest cur _
    have h2 : dayDiff cur d ≤ 6 := dayDiff_le_six cur d (hall d (List.mem_cons_self d rest))
    calc (d :: rest).foldl (fun a x => min a (dayDiff cur x)) 7
        = rest.foldl (fun a x => min a (dayDiff cur x)) (min 7 (dayDiff cur d)) := rfl
      _ ≤ min 7 (dayDiff cur d) := h1
      _ ≤ dayDiff cur d := min_le_right _ _
      _ ≤ 6 := h2

/-- The guard section never reports `noFirstOccurrence`. -/
theorem preprocess_ne_noFirstOccurrence (ctx : FmtCtx) (ev : SEvent) :
    preprocess ctx ev ≠ .error .noFirstOccurrence := by
  intro h
  unfold preprocess at h
  dsimp only at h
  split at h
  · cases h
  · split at h
    · cases h
    · split at h
      · split at h
        · cases h
        · split at h
          · cases h
          · split at h
            · rename_i hdow hsm hdta
              have hne : ((ev.days.map jsToLower).filter (fun d => (rruleOf d).isSome)) ≠ [] := by
                intro hnil
                rw [hnil] at hdow
                exact hdow rfl
              have hall : ∀ d ∈ (ev.days.map jsToLower).filter (fun d => (rruleOf d).isSome),
                  (rruleOf d).isSome = true :=
                fun d hd => (List.mem_filter.mp hd).2
              have h6 := daysToAddFor_le_six _ ctx.curIdx hne hall
              have heq : daysToAddFor
                  ((ev.days.map jsToLower).filter (fun d => (rruleOf d).isSome)) ctx.curIdx = 7 :=
                eq_of_beq hdta
              omega
            · split at h
              · cases h
              · cases h
      · cases h

/-- C10: for every event that reaches the first-occurrence computation
(lowercased days filtered to known weekday names non-empty, both times
parsed), the minimal day offset over its weekdays is at most 6, so the
`Could not determine first occurrence day` branch is unreachable: the
per-event body never produces that skip, and the computed offset is
bounded by 6 whenever the filtered weekday list is non-empty. -/
theorem c10_first_occurrence_reachable :
    (∀ (r : Nat → Nat) (ctx : FmtCtx) (cs : ColorState) (ev : SEvent),
      (processEvent r ctx cs ev).1 ≠ .skipped .noFirstOccurrence) ∧
    (∀ (ds : List String) (cur : Nat), ds ≠ [] →
      (∀ d ∈ ds, (rruleOf d).isSome = true) → daysToAddFor ds cur ≤ 6) := by
  constructor
  · intro r ctx cs ev
    unfold processEvent
    cases hpp : preprocess ctx ev with
    | error reason =>
        dsimp only
        intro hcontra
        have hr : reason = .noFirstOccurrence := by
          cases hcontra
          rfl
        rw [hr] at hpp
        exact preprocess_ne_noFirstOccurrence ctx ev hpp
    | ok d =>
        dsimp only
        intro hcontra
        cases hcontra
  · exact fun ds cur hne hall => daysToAddFor_le_six ds cur hne hall

/-- Witness for C10's bounded-offset conjunct at a concrete weekday
list. -/
theorem c10_first_occurrence_reachable_witness :
    daysToAddFor ["monday", "wednesday"] 0 ≤ 6 :=
  c10_first_occurrence_reachable.2 ["monday", "wednesday"] 0
    (by simp) (by decide)

/-! ## Total failure (C1) -/

/-- Whether a file's extraction call rejects. -/
def isThrowB : ExtractBehavior → Bool
  | .extThrow _ => true
  | .extReturn _ => false

/-- Bridging `List.contains` and membership. -/
theorem contains_eq_true_iff (l : List String) (a : String) :
    l.contains a = true ↔ a ∈ l := by
  simp [List.elem_iff]

/-- A path absent from the filesystem stays absent across an unlink. -/
theorem contains_filter_false (l : List String) (p : String → Bool) (a : String)
    (h : l.contains a = false) : (l.filter p).contains a = false := by
  rcases hc : (l.filter p).contains a with _ | _
  · rfl
  · exfalso
    have hmem := (contains_eq_true_iff _ _).mp hc
    have h2 := (contains_eq_true_iff l a).mpr (List.mem_filter.mp hmem).1
    rw [h] at h2
    cases h2

/-- A file whose read or extraction throws leaves every accumulator except
the error list and the filesystem untouched. -/
theorem stepFile_throwish (st : WState) (f : FileSpec)
    (h : st.fs.contains f.path = false ∨ isThrowB f.extract = true) :
    (stepFile st f).okCount = st.okCount ∧
    (stepFile st f).events = st.events ∧
    (stepFile st f).termStartDate = st.termStartDate ∧
    (stepFile st f).termEndDate = st.termEndDate ∧
    (stepFile st f).warnings = st.warnings := by
  unfold stepFile
  rcases hc : st.fs.contains f.path with _ | _
  · simp only [Bool.false_eq_true, if_false]
    simp
  · rcases h with h | h
    · rw [hc] at h; cases h
    · rcases hext : f.extract with m | j
      · simp only [if_true]
        simp
      · rw [hext] at h; cases h

/-- When every file of the remaining list fails by throwing (unreadable
path or rejecting extraction), the loop's success counter does not
move. -/
theorem foldl_ok_zero (files : List FileSpec) (st : WState)
    (h : ∀ f ∈ files, st.fs.contains f.path = false ∨ isThrowB f.extract = true) :
    (files.foldl stepFile st).okCount = st.okCount := by
  induction files generalizing st with
  | nil => rfl
  | cons f rest ih =>
      have hf := h f (List.mem_cons_self f rest)
      have hstep := stepFile_throwish st f hf
      have hrest : ∀ g ∈ rest, (stepFile st f).fs.contains g.path = false ∨ isThrowB g.extract = true := by
        intro g hg
        rcases h g (List.mem_cons_of_mem f hg) with hg2 | hg2
        · left
          rw [stepFile_fs]
          exact contains_filter_false st.fs _ g.path hg2
        · right; exact hg2
      calc (rest.foldl stepFile (stepFile st f)).okCount
          = (stepFile st f).okCount := ih (stepFile st f) hrest
        _ = st.okCount := hstep.1

/-- Amended C1: for every job with a non-empty file list in which every
file's processing throws (its temp path cannot be read, or its extraction
call rejects), processAiJob stores no PreviewResult — Redis is untouched —
and the job fails by propagating an error.  (The original claim also
counted files whose extraction resolves with no usable events array as
failures; the code counts those as processed and still stores a preview,
see the counterexample.) -/
theorem c1_amended_total_throw_failure (sid : String) (files : List FileSpec)
    (fs0 : List String) (redis : List (String × RedisVal))
    (hne : files ≠ [])
    (hall : ∀ f ∈ files, fs0.contains f.path = false ∨ isThrowB f.extract = true) :
    (∃ m, (processAiJob sid files fs0 redis).outcome = .jobFailed m) ∧
    (processAiJob sid files fs0 redis).redis = redis := by
  have hok : (files.foldl stepFile (initWState fs0)).okCount = 0 :=
    foldl_ok_zero files (initWState fs0) hall
  have hlen : 0 < files.length := List.length_pos.mpr hne
  unfold processAiJob
  dsimp only
  rw [hok]
  have hcond : ((0 : Nat) == 0 && decide (files.length > 0)) = true := by
    simp [hlen]
  rw [hcond]
  exact ⟨⟨_, rfl⟩, rfl⟩

/-- Witness for the amended C1 at a concrete two-file job where one read
fails and one extraction rejects. -/
theorem c1_amended_total_throw_failure_witness :
    (∃ m, (processAiJob "sess"
        [⟨"/gone", "a.png", .extReturn .jnull⟩, ⟨"/tmp/b", "b.png", .extThrow "model down"⟩]
        ["/tmp/b"] [("other", .corrupt)]).outcome = .jobFailed m) ∧
    (processAiJob "sess"
        [⟨"/gone", "a.png", .extReturn .jnull⟩, ⟨"/tmp/b", "b.png", .extThrow "model down"⟩]
        ["/tmp/b"] [("other", .corrupt)]).redis = [("other", .corrupt)] :=
  c1_amended_total_throw_failure "sess" _ _ _ (by simp)
    (by intro f hf; fin_cases hf <;> simp [isThrowB])

/-- Counterexample to C1 as stated: a one-file job in which the only
file "fails" in the claim's sense — its extraction resolves but the output
has no usable array of events — yet processAiJob completes, records the
file as a processing error, and stores a PreviewResult in Redis. -/
theorem c1_counterexample :
    (processAiJob "sess" [⟨"/tmp/a", "a.png", .extReturn (.jobj [("scheduleEvents", .jstr "oops")])⟩]
        ["/tmp/a"] []).outcome.isCompleted = true ∧
    (redisGet (processAiJob "sess"
        [⟨"/tmp/a", "a.png", .extReturn (.jobj [("scheduleEvents", .jstr "oops")])⟩]
        ["/tmp/a"] []).redis "preview:sess").isSome = true ∧
    ((processAiJob "sess" [⟨"/tmp/a", "a.png", .extReturn (.jobj [("scheduleEvents", .jstr "oops")])⟩]
        ["/tmp/a"] []).outcome.previewOf.map (fun pv => pv.processingErrors.length)) = some 1 :=
  ⟨rfl, rfl, rfl⟩

/-! ## Characterizing the file loop (C2, C5, C6) -/

/-- `aiResult && Array.isArray(aiResult.scheduleEvents)`: the usable events
array of an AI result, when there is one. -/
def aiEventsArr (j : Json) : Option (List Json) :=
  if j.truthy then
    match j.get "scheduleEvents" with
    | some (.jarr l) => some l
    | _ => none
  else none

/-- Whether the AI result of a file resolves with a usable events array
(the file neither throws nor is recorded as format-invalid). -/
def fileUsableB (f : FileSpec) : Bool :=
  match f.extract with
  | .extReturn j => (aiEventsArr j).isSome
  | .extThrow _ => false

/-- The validated events a file contributes to the merge. -/
def fileEvents (f : FileSpec) : List Json :=
  match f.extract with
  | .extReturn j =>
      match aiEventsArr j with
      | some l => l.filter validEventJson
      | none => []
  | .extThrow _ => []

/-- The processing error a file contributes, if any. -/
def fileErr (f : FileSpec) : Option PError :=
  match f.extract with
  | .extThrow m => some ⟨f.filename, if m == "" then "Unknown processing error" else m⟩
  | .extReturn j =>
      match aiEventsArr j with
      | some _ => none
      | none => some ⟨f.filename, invalidFormatMsg⟩

/-- The value a term-date field would capture from one AI field value. -/
def dateCandidate (v : Option Json) : Option String :=
  match v with
  | some (.jstr s) => if s != "" && dateRegexTest s then some s else none
  | _ => none

/-- The warning a term-date field value produces when examined while the
field is still unset. -/
def dateBadWarn (v : Option Json) (fname fieldName msg : String) : List PWarning :=
  match v with
  | some (.jstr s) => if s != "" && !dateRegexTest s then [⟨fname, msg, fieldName, .jstr s⟩] else []
  | _ => []

/-- First-writer-wins choice on optional values. -/
def orO (a b : Option String) : Option String :=
  match a with
  | some x => some x
  | none => b

/-- The well-formed term-date value a file supplies to the capture logic
(only files with a usable events array are examined). -/
def goodDateField (field : String) (f : FileSpec) : Option String :=
  match f.extract with
  | .extReturn j =>
      match aiEventsArr j with
      | some _ => dateCandidate (j.get field)
      | none => none
  | .extThrow _ => none

/-- The raw AI value of a term-date field of a file's result. -/
def aiDateField (f : FileSpec) (field : String) : Option Json :=
  match f.extract with
  | .extReturn j => j.get field
  | .extThrow _ => none

/-- The warnings one file contributes, given the state of the two
term-date fields when it is processed. -/
def fileWarnings (tsd tend : Option String) (f : FileSpec) : List PWarning :=
  match f.extract with
  | .extReturn j =>
      match aiEventsArr j with
      | some _ =>
          (match tsd with
           | some _ => []
           | none => dateBadWarn (j.get "termStartDate") f.filename "termStartDate" startDateWarnMsg) ++
          (match tend with
           | some _ => []
           | none => dateBadWarn (j.get "termEndDate") f.filename "termEndDate" endDateWarnMsg)
      | none => []
  | .extThrow _ => []

theorem orO_none (a : Option String) : orO a none = a := by
  cases a <;> rfl

theorem orO_assoc (a b c : Option String) : orO (orO a b) c = orO a (orO b c) := by
  cases a <;> rfl

/-- The capture block splits into first-writer-wins value choice and
unset-field warning emission. -/
theorem captureTermDate_eq (cur : Option String) (v : Option Json) (fname fieldName msg : String) :
    captureTermDate cur v fname fieldName msg =
      (orO cur (dateCandidate v),
       match cur with
       | some _ => []
       | none => dateBadWarn v fname fieldName msg) := by
  cases cur with
  | some x => rfl
  | none =>
      cases v with
      | none => rfl
      | some jv =>
          cases jv with
          | jstr s =>
              by_cases hs : s = ""
              · simp [captureTermDate, orO, dateCandidate, dateBadWarn, hs]
              · by_cases hr : dateRegexTest s = true
                · simp [captureTermDate, orO, dateCandidate, dateBadWarn, hs, hr]
                · simp [captureTermDate, orO, dateCandidate, dateBadWarn, hs, hr]
          | jnull => rfl
          | jbool b => rfl
          | jnum n => rfl
          | jarr l => rfl
          | jobj fields => rfl

/-- One readable file's iteration, in terms of its per-file
contributions. -/
theorem stepFile_readable (st : WState) (f : FileSpec)
    (h : st.fs.contains f.path = true) :
    stepFile st f =
      { events := st.events ++ fileEvents f,
        termStartDate := orO st.termStartDate (goodDateField "termStartDate" f),
        termEndDate := orO st.termEndDate (goodDateField "termEndDate" f),
        okCount := st.okCount + (if fileUsableB f || !(isThrowB f.extract) then 1 else 0),
        errors := st.errors ++ (fileErr f).toList,
        warnings := st.warnings ++ fileWarnings st.termStartDate st.termEndDate f,
        fs := st.fs.filter (fun p => p != f.path) } := by
  rcases f with ⟨pa, fn, ext⟩
  cases ext with
  | extThrow m =>
      unfold stepFile
      rw [h]
      simp [fileEvents, fileErr, fileWarnings, goodDateField, orO_none, fileUsableB, isThrowB]
  | extReturn j =>
      unfold stepFile
      rw [h]
      by_cases ht : j.truthy = true
      · cases hg : j.get "scheduleEvents" with
        | none =>
            have ha : aiEventsArr j = none := by simp [aiEventsArr, ht, hg]
            simp [ht, hg, fileEvents, fileErr, fileWarnings, goodDateField, orO_none,
              fileUsableB, isThrowB, ha]
        | some v =>
            cases v with
            | jarr l =>
                have ha : aiEventsArr j = some l := by simp [aiEventsArr, ht, hg]
                simp only [ht, hg, if_true]
                rw [captureTermDate_eq, captureTermDate_eq]
                simp [fileEvents, fileErr, fileWarnings, goodDateField, fileUsableB, isThrowB, ha]
            | jnull =>
                have ha : aiEventsArr j = none := by simp [aiEventsArr, ht, hg]
                simp [ht, hg, fileEvents, fileErr, fileWarnings, goodDateField, orO_none,
                  fileUsableB, isThrowB, ha]
            | jbool b =>
                have ha : aiEventsArr j = none := by simp [aiEventsArr, ht, hg]
                simp [ht, hg, fileEvents, fileErr, fileWarnings, goodDateField, orO_none,
                  fileUsableB, isThrowB, ha]
            | jnum n =>
                have ha : aiEventsArr j = none := by simp [aiEventsArr, ht, hg]
                simp [ht, hg, fileEvents, fileErr, fileWarnings, goodDateField, orO_none,
                  fileUsableB, isThrowB, ha]
            | jstr s2 =>
                have ha : aiEventsArr j = none := by simp [aiEventsArr, ht, hg]
                simp [ht, hg, fileEvents, fileErr, fileWarnings, goodDateField, orO_none,
                  fileUsableB, isThrowB, ha]
            | jobj fields =>
                have ha : aiEventsArr j = none := by simp [aiEventsArr, ht, hg]
                simp [ht, hg, fileEvents, fileErr, fileWarnings, goodDateField, orO_none,
                  fileUsableB, isThrowB, ha]
      · have ht2 : j.truthy = false := by simpa using ht
        have ha : aiEventsArr j = none := by simp [aiEventsArr, ht2]
        simp [ht2, fileEvents, fileErr, fileWarnings, goodDateField, orO_none,
          fileUsableB, isThrowB, ha]

/-- `head?` of a `filterMap` peels one element first-writer style. -/
theorem filterMap_cons_head? {α : Type} (g : α → Option String) (f : α) (rest : List α) :
    ((f :: rest).filterMap g).head? = orO (g f) ((rest.filterMap g).head?) := by
  cases hg : g f with
  | some x => simp [List.filterMap_cons, hg, orO]
  | none => simp [List.filterMap_cons, hg, orO]

/-- Full characterization of the worker's file loop when every listed path
is readable and paths are distinct: events are the concatenation of
per-file validated events, the success counter counts the non-throwing
files, errors are the per-file errors in order, and each term date is the
first per-file well-formed candidate. -/
theorem foldl_stepFile_char (files : List FileSpec) (st : WState)
    (h1 : ∀ f ∈ files, st.fs.contains f.path = true)
    (h2 : (files.map FileSpec.path).Nodup) :
    (files.foldl stepFile st).events = st.events ++ files.flatMap fileEvents ∧
    (files.foldl stepFile st).okCount
        = st.okCount + (files.filter (fun f => !(isThrowB f.extract))).length ∧
    (files.foldl stepFile st).errors = st.errors ++ files.filterMap fileErr ∧
    (files.foldl stepFile st).termStartDate
        = orO st.termStartDate (files.filterMap (goodDateField "termStartDate")).head? ∧
    (files.foldl stepFile st).termEndDate
        = orO st.termEndDate (files.filterMap (goodDateField "termEndDate")).head? ∧
    (∃ ws, (files.foldl stepFile st).warnings = st.warnings ++ ws) := by
  induction files generalizing st with
  | nil =>
      refine ⟨by simp, by simp, by simp, by simp [orO_none], by simp [orO_none], ⟨[], by simp⟩⟩
  | cons f rest ih =>
      have hf := h1 f (List.mem_cons_self f rest)
      have hnotin : f.path ∉ rest.map FileSpec.path := by
        have := h2
        simp only [List.map_cons, List.nodup_cons] at this
        exact this.1
      have h1' : ∀ g ∈ rest, (stepFile st f).fs.contains g.path = true := by
        intro g hg
        rw [stepFile_fs]
        apply (contains_eq_true_iff _ _).mpr
        apply List.mem_filter.mpr
        refine ⟨(contains_eq_true_iff _ _).mp (h1 g (List.mem_cons_of_mem f hg)), ?_⟩
        have hne : g.path ≠ f.path := by
          intro he
          exact hnotin (he ▸ List.mem_map_of_mem FileSpec.path hg)
        simp [hne]
      have h2' : (rest.map FileSpec.path).Nodup := by
        have := h2
        simp only [List.map_cons, List.nodup_cons] at this
        exact this.2
      obtain ⟨ihev, ihok, iherr, ihtsd, ihtend, ⟨ws, ihws⟩⟩ := ih (stepFile st f) h1' h2'
      have hs := stepFile_readable st f hf
      have hcount : (if fileUsableB f || !(isThrowB f.extract) then 1 else 0)
          = (if !(isThrowB f.extract) then 1 else 0) := by
        rcases f with ⟨pa, fn, ext⟩
        cases ext <;> simp [fileUsableB, isThrowB]
      refine ⟨?_, ?_, ?_, ?_, ?_, ?_⟩
      · rw [List.foldl_cons, ihev, hs]
        simp [List.append_assoc]
      · rw [List.foldl_cons, ihok, hs]
        dsimp only
        rw [hcount]
        rcases hthrow : isThrowB f.extract with _ | _ <;>
          simp [List.filter_cons, hthrow] <;> omega
      · rw [List.foldl_cons, iherr, hs]
        dsimp only
        cases hfe : fileErr f with
        | some e => simp [List.filterMap_cons, hfe, List.append_assoc]
        | none => simp [List.filterMap_cons, hfe]
      · rw [List.foldl_cons, ihtsd, hs]
        dsimp only
        rw [filterMap_cons_head?, orO_assoc]
      · rw [List.foldl_cons, ihtend, hs]
        dsimp only
        rw [filterMap_cons_head?, orO_assoc]
      · refine ⟨fileWarnings st.termStartDate st.termEndDate f ++ ws, ?_⟩
        rw [List.foldl_cons, ihws, hs]
        dsimp only
        rw [List.append_assoc]

/-- A file with a usable events array does not throw. -/
theorem fileUsableB_not_throw (f : FileSpec) (h : fileUsableB f = true) :
    isThrowB f.extract = false := by
  rcases f with ⟨pa, fn, ext⟩
  cases ext with
  | extThrow m => simp [fileUsableB] at h
  | extReturn j => rfl

/-- Every merged event passed the event schema. -/
theorem flatMap_fileEvents_valid (files : List FileSpec) :
    ∀ e ∈ files.flatMap fileEvents, validEventJson e = true := by
  intro e he
  obtain ⟨f, _, hef⟩ := List.mem_flatMap.mp he
  rcases f with ⟨pa, fn, ext⟩
  cases ext with
  | extThrow m => simp [fileEvents] at hef
  | extReturn j =>
      cases ha : aiEventsArr j with
      | some l =>
          simp only [fileEvents, ha] at hef
          exact (List.mem_filter.mp hef).2
      | none => simp [fileEvents, ha] at hef

/-- A captured term-date candidate always matches the date regex. -/
theorem goodDateField_regex (field : String) (f : FileSpec) (s : String)
    (h : goodDateField field f = some s) : dateRegexTest s = true := by
  rcases f with ⟨pa, fn, ext⟩
  cases ext with
  | extThrow m => simp [goodDateField] at h
  | extReturn j =>
      cases ha : aiEventsArr j with
      | some l =>
          simp only [goodDateField, ha] at h
          cases hv : j.get field with
          | none => rw [hv] at h; simp [dateCandidate] at h
          | some jv =>
              rw [hv] at h
              cases jv with
              | jstr s2 =>
                  simp only [dateCandidate] at h
                  split at h
                  · rename_i hcond
                    cases h
                    exact Bool.and_elim_right hcond
                  · cases h
              | jnull => simp [dateCandidate] at h
              | jbool b => simp [dateCandidate] at h
              | jnum n => simp [dateCandidate] at h
              | jarr l2 => simp [dateCandidate] at h
              | jobj fl => simp [dateCandidate] at h
      | none => simp [goodDateField, ha] at h

/-- The per-file errors name exactly the failing files, in order. -/
theorem filterMap_fileErr_filenames (files : List FileSpec) :
    (files.filterMap fileErr).map PError.filename
      = (files.filter (fun f => !(fileUsableB f))).map FileSpec.filename := by
  induction files with
  | nil => rfl
  | cons f rest ih =>
      rcases f with ⟨pa, fn, ext⟩
      cases ext with
      | extThrow m =>
          simp only [List.filterMap_cons, List.filter_cons, fileErr, fileUsableB]
          simpa using ih
      | extReturn j =>
          cases ha : aiEventsArr j with
          | some l =>
              simp only [List.filterMap_cons, List.filter_cons, fileErr, fileUsableB, ha]
              simpa using ih
          | none =>
              simp only [List.filterMap_cons, List.filter_cons, fileErr, fileUsableB, ha]
              simpa using ih

/-- Setting a key makes it retrievable. -/
theorem redisGet_redisSet_self (store : List (String × RedisVal)) (k : String) (v : RedisVal) :
    redisGet (redisSet store k v) k = some v := by
  simp [redisGet, redisSet, List.find?]

/-- C2: for every job in which at least one file succeeds (usable events
array) and at least one file's extraction throws — with every temp path
readable and paths distinct — processAiJob still completes and stores a
PreviewResult whose scheduleData contains exactly the validated events of
the succeeding files (in order), and whose processingErrors name exactly
the failing files, one entry per failing file. -/
theorem c2_partial_success (sid : String) (files : List FileSpec)
    (fs0 : List String) (redis : List (String × RedisVal))
    (h1 : ∀ f ∈ files, fs0.contains f.path = true)
    (h2 : (files.map FileSpec.path).Nodup)
    (h3 : ∃ f ∈ files, fileUsableB f = true)
    (h4 : ∃ f ∈ files, isThrowB f.extract = true) :
    ∃ pv, (processAiJob sid files fs0 redis).outcome = .jobCompleted pv ∧
      pv.scheduleData.scheduleEvents = files.flatMap fileEvents ∧
      pv.processingErrors = files.filterMap fileErr ∧
      pv.processingErrors.map PError.filename
        = (files.filter (fun f => !(fileUsableB f))).map FileSpec.filename ∧
      redisGet (processAiJob sid files fs0 redis).redis ("preview:" ++ sid)
        = some (.jsonVal (encodePreview pv)) := by
  obtain ⟨hev, hok, herr, htsd, htend, _⟩ :=
    foldl_stepFile_char files (initWState fs0) h1 h2
  set st := files.foldl stepFile (initWState fs0) with hst
  have hev2 : st.events = files.flatMap fileEvents := by simpa [initWState] using hev
  have herr2 : st.errors = files.filterMap fileErr := by simpa [initWState] using herr
  have htsd2 : st.termStartDate = (files.filterMap (goodDateField "termStartDate")).head? := by
    simpa [initWState, orO] using htsd
  have htend2 : st.termEndDate = (files.filterMap (goodDateField "termEndDate")).head? := by
    simpa [initWState, orO] using htend
  have hokpos : 0 < st.okCount := by
    obtain ⟨f, hfmem, hfus⟩ := h3
    have hmem2 : f ∈ files.filter (fun f => !(isThrowB f.extract)) :=
      List.mem_filter.mpr ⟨hfmem, by simp [fileUsableB_not_throw f hfus]⟩
    have hlen : 0 < (files.filter (fun f => !(isThrowB f.extract))).length :=
      List.length_pos.mpr (List.ne_nil_of_mem hmem2)
    rw [hok]
    simp [initWState]
    omega
  have hcond : (st.okCount == 0 && decide (files.length > 0)) = false := by
    have : (st.okCount == 0) = false := by
      cases hc : st.okCount with
      | zero => rw [hc] at hokpos; cases hokpos
      | succ n => rfl
    rw [this, Bool.false_and]
  have hdate : ∀ (field : String),
      (match (files.filterMap (goodDateField field)).head? with
       | none => true
       | some s => dateRegexTest s) = true := by
    intro field
    cases hh : (files.filterMap (goodDateField field)).head? with
    | none => rfl
    | some s =>
        have hmem := List.mem_of_mem_head? hh
        obtain ⟨f, _, hgf⟩ := List.mem_filterMap.mp hmem
        exact goodDateField_regex field f s hgf
  have hvalid : validCombined ⟨st.termStartDate, st.termEndDate, st.events⟩ = true := by
    unfold validCombined
    apply Bool.and_eq_true_iff.mpr
    constructor
    · apply Bool.and_eq_true_iff.mpr
      constructor
      · rw [htsd2]; exact hdate "termStartDate"
      · rw [htend2]; exact hdate "termEndDate"
    · rw [hev2]
      apply List.all_eq_true.mpr
      intro e he
      exact flatMap_fileEvents_valid files e he
  unfold processAiJob
  dsimp only
  rw [← hst, hcond]
  simp only [Bool.false_eq_true, if_false]
  rw [hvalid]
  simp only [if_true]
  refine ⟨_, rfl, ?_, ?_, ?_, ?_⟩
  · exact hev2
  · exact herr2
  · rw [herr2]; exact filterMap_fileErr_filenames files
  · exact redisGet_redisSet_self redis _ _

/-- Witness for C2 at a concrete three-file job where exactly the second
file throws. -/
theorem c2_partial_success_witness :
    (let files : List FileSpec :=
      [⟨"/t/1", "1.png", .extReturn (.jobj [("scheduleEvents", .jarr []),
            ("termStartDate", .jstr "2024-09-02")])⟩,
       ⟨"/t/2", "2.png", .extThrow "boom"⟩,
       ⟨"/t/3", "3.png", .extReturn (.jobj [("scheduleEvents", .jarr [])])⟩];
     ∃ pv, (processAiJob "s" files ["/t/1", "/t/2", "/t/3"] []).outcome = .jobCompleted pv ∧
       pv.scheduleData.scheduleEvents = files.flatMap fileEvents ∧
       pv.processingErrors = files.filterMap fileErr ∧
       pv.processingErrors.map PError.filename
         = (files.filter (fun f => !(fileUsableB f))).map FileSpec.filename ∧
       redisGet (processAiJob "s" files ["/t/1", "/t/2", "/t/3"] []).redis ("preview:" ++ "s")
         = some (.jsonVal (encodePreview pv))) :=
  c2_partial_success "s" _ _ _
    (by intro f hf; fin_cases hf <;> rfl)
    (by decide)
    ⟨_, List.mem_cons_self _ _, rfl⟩
    ⟨_, List.mem_cons_of_mem _ (List.mem_cons_self _ _), rfl⟩

/-- Membership in the filesystem after the loop: present initially and not
a listed temp path. -/
theorem mem_foldl_stepFile_fs (files : List FileSpec) (st : WState) (q : String) :
    q ∈ (files.foldl stepFile st).fs ↔ (q ∈ st.fs ∧ q ∉ files.map FileSpec.path) := by
  induction files generalizing st with
  | nil => simp
  | cons f rest ih =>
      rw [List.foldl_cons, ih, stepFile_fs]
      constructor
      · rintro ⟨hmem, hnot⟩
        obtain ⟨hmem2, hne⟩ := List.mem_filter.mp hmem
        refine ⟨hmem2, ?_⟩
        simp only [List.map_cons, List.mem_cons]
        rintro (he | he)
        · revert hne; simp [he]
        · exact hnot he
      · rintro ⟨hmem, hnot⟩
        simp only [List.map_cons, List.mem_cons] at hnot
        push_neg at hnot
        refine ⟨List.mem_filter.mpr ⟨hmem, by simp [hnot.1]⟩, hnot.2⟩

/-- Each iteration only appends to the warnings list. -/
theorem stepFile_warnings_ext (st : WState) (f : FileSpec) :
    ∃ w0, (stepFile st f).warnings = st.warnings ++ w0 := by
  rcases hc : st.fs.contains f.path with _ | _
  · have h := stepFile_throwish st f (Or.inl hc)
    exact ⟨[], by rw [h.2.2.2.2]; simp⟩
  · rw [stepFile_readable st f hc]
    exact ⟨_, rfl⟩

/-- The loop only appends to the warnings list. -/
theorem foldl_warnings_ext (files : List FileSpec) (st : WState) :
    ∃ ws, (files.foldl stepFile st).warnings = st.warnings ++ ws := by
  induction files generalizing st with
  | nil => exact ⟨[], by simp⟩
  | cons f rest ih =>
      obtain ⟨w0, hw0⟩ := stepFile_warnings_ext st f
      obtain ⟨ws, hws⟩ := ih (stepFile st f)
      exact ⟨w0 ++ ws, by rw [List.foldl_cons, hws, hw0, List.append_assoc]⟩

/-- If a usable file with a malformed non-empty term start date is
processed while no earlier file supplied a well-formed start date, the
loop records the corresponding warning. -/
theorem warnStart_mem_foldl (files : List FileSpec) (st : WState)
    (h1 : ∀ g ∈ files, st.fs.contains g.path = true)
    (h2 : (files.map FileSpec.path).Nodup)
    (h0 : st.termStartDate = none)
    (pre : List FileSpec) (f : FileSpec) (post : List FileSpec) (s : String)
    (hsplit : files = pre ++ f :: post)
    (hpre : ∀ g ∈ pre, goodDateField "termStartDate" g = none)
    (hus : fileUsableB f = true)
    (hval : aiDateField f "termStartDate" = some (.jstr s))
    (hs : s ≠ "") (hr : dateRegexTest s = false) :
    (⟨f.filename, startDateWarnMsg, "termStartDate", .jstr s⟩ : PWarning)
      ∈ (files.foldl stepFile st).warnings := by
  subst hsplit
  rw [List.foldl_append, List.foldl_cons]
  have h1p : ∀ g ∈ pre, st.fs.contains g.path = true := fun g hg => h1 g (by simp [hg])
  have h2p : (pre.map FileSpec.path).Nodup := by
    rw [List.map_append] at h2
    exact h2.of_append_left
  obtain ⟨_, _, _, htsdP, _, _⟩ := foldl_stepFile_char pre st h1p h2p
  have htsdP2 : (pre.foldl stepFile st).termStartDate = none := by
    rw [htsdP, h0]
    have hnil : pre.filterMap (goodDateField "termStartDate") = [] :=
      List.filterMap_eq_nil.mpr hpre
    rw [hnil]
    rfl
  have hfR : (pre.foldl stepFile st).fs.contains f.path = true := by
    apply (contains_eq_true_iff _ _).mpr
    apply (mem_foldl_stepFile_fs pre st f.path).mpr
    refine ⟨(contains_eq_true_iff _ _).mp (h1 f (by simp)), ?_⟩
    intro hin
    rw [List.map_append, List.map_cons] at h2
    exact (List.disjoint_of_nodup_append h2) hin (by simp)
  rw [stepFile_readable _ f hfR]
  obtain ⟨ws, hws⟩ := foldl_warnings_ext post _
  rw [hws]
  apply List.mem_append_left
  dsimp only
  apply List.mem_append_right
  rcases hext : f.extract with m | j
  · unfold fileUsableB at hus
    rw [hext] at hus
    simp at hus
  · unfold fileUsableB at hus
    rw [hext] at hus
    obtain ⟨l, hl⟩ := Option.isSome_iff_exists.mp hus
    have hv : j.get "termStartDate" = some (.jstr s) := by
      unfold aiDateField at hval
      rw [hext] at hval
      exact hval
    simp only [fileWarnings, hext, hl, htsdP2, hv, dateBadWarn]
    have hcond : (s != "" && !dateRegexTest s) = true := by
      simp [hs, hr]
    rw [hcond]
    simp

/-- The symmetric fact for the term end date. -/
theorem warnEnd_mem_foldl (files : List FileSpec) (st : WState)
    (h1 : ∀ g ∈ files, st.fs.contains g.path = true)
    (h2 : (files.map FileSpec.path).Nodup)
    (h0 : st.termEndDate = none)
    (pre : List FileSpec) (f : FileSpec) (post : List FileSpec) (s : String)
    (hsplit : files = pre ++ f :: post)
    (hpre : ∀ g ∈ pre, goodDateField "termEndDate" g = none)
    (hus : fileUsableB f = true)
    (hval : aiDateField f "termEndDate" = some (.jstr s))
    (hs : s ≠ "") (hr : dateRegexTest s = false) :
    (⟨f.filename, endDateWarnMsg, "termEndDate", .jstr s⟩ : PWarning)
      ∈ (files.foldl stepFile st).warnings := by
  subst hsplit
  rw [List.foldl_append, List.foldl_cons]
  have h1p : ∀ g ∈ pre, st.fs.contains g.path = true := fun g hg => h1 g (by simp [hg])
  have h2p : (pre.map FileSpec.path).Nodup := by
    rw [List.map_append] at h2
    exact h2.of_append_left
  obtain ⟨_, _, _, _, htendP, _⟩ := foldl_stepFile_char pre st h1p h2p
  have htendP2 : (pre.foldl stepFile st).termEndDate = none := by
    rw [htendP, h0]
    have hnil : pre.filterMap (goodDateField "termEndDate") = [] :=
      List.filterMap_eq_nil.mpr hpre
    rw [hnil]
    rfl
  have hfR : (pre.foldl stepFile st).fs.contains f.path = true := by
    apply (contains_eq_true_iff _ _).mpr
    apply (mem_foldl_stepFile_fs pre st f.path).mpr
    refine ⟨(contains_eq_true_iff _ _).mp (h1 f (by simp)), ?_⟩
    intro hin
    rw [List.map_append, List.map_cons] at h2
    exact (List.disjoint_of_nodup_append h2) hin (by simp)
  rw [stepFile_readable _ f hfR]
  obtain ⟨ws, hws⟩ := foldl_warnings_ext post _
  rw [hws]
  apply List.mem_append_left
  dsimp only
  apply List.mem_append_right
  rcases hext : f.extract with m | j
  · unfold fileUsableB at hus
    rw [hext] at hus
    simp at hus
  · unfold fileUsableB at hus
    rw [hext] at hus
    obtain ⟨l, hl⟩ := Option.isSome_iff_exists.mp hus
    have hv : j.get "termEndDate" = some (.jstr s) := by
      unfold aiDateField at hval
      rw [hext] at hval
      exact hval
    simp only [fileWarnings, hext, hl, htendP2, hv, dateBadWarn]
    apply List.mem_append_right
    have hcond : (s != "" && !dateRegexTest s) = true := by
      simp [hs, hr]
    rw [hcond]
    simp

/-- With readable distinct paths and at least one non-throwing file, the
job completes with the loop's accumulated preview. -/
theorem processAiJob_completes (sid : String) (files : List FileSpec)
    (fs0 : List String) (redis : List (String × RedisVal))
    (h1 : ∀ f ∈ files, fs0.contains f.path = true)
    (h2 : (files.map FileSpec.path).Nodup)
    (h3 : ∃ f ∈ files, isThrowB f.extract = false) :
    (processAiJob sid files fs0 redis).outcome = .jobCompleted
      ⟨⟨(files.foldl stepFile (initWState fs0)).termStartDate,
        (files.foldl stepFile (initWState fs0)).termEndDate,
        (files.foldl stepFile (initWState fs0)).events⟩,
       (files.foldl stepFile (initWState fs0)).warnings,
       (files.foldl stepFile (initWState fs0)).errors⟩ := by
  obtain ⟨hev, hok, herr, htsd, htend, _⟩ :=
    foldl_stepFile_char files (initWState fs0) h1 h2
  set st := files.foldl stepFile (initWState fs0) with hst
  have hev2 : st.events = files.flatMap fileEvents := by simpa [initWState] using hev
  have htsd2 : st.termStartDate = (files.filterMap (goodDateField "termStartDate")).head? := by
    simpa [initWState, orO] using htsd
  have htend2 : st.termEndDate = (files.filterMap (goodDateField "termEndDate")).head? := by
    simpa [initWState, orO] using htend
  have hokpos : 0 < st.okCount := by
    obtain ⟨f, hfmem, hfth⟩ := h3
    have hmem2 : f ∈ files.filter (fun f => !(isThrowB f.extract)) :=
      List.mem_filter.mpr ⟨hfmem, by simp [hfth]⟩
    have hlen : 0 < (files.filter (fun f => !(isThrowB f.extract))).length :=
      List.length_pos.mpr (List.ne_nil_of_mem hmem2)
    rw [hok]
    simp [initWState]
    omega
  have hcond : (st.okCount == 0 && decide (files.length > 0)) = false := by
    have hzero : (st.okCount == 0) = false := by
      cases hc : st.okCount with
      | zero => rw [hc] at hokpos; cases hokpos
      | succ n => rfl
    rw [hzero, Bool.false_and]
  have hdate : ∀ (field : String),
      (match (files.filterMap (goodDateField field)).head? with
       | none => true
       | some s => dateRegexTest s) = true := by
    intro field
    cases hh : (files.filterMap (goodDateField field)).head? with
    | none => rfl
    | some s =>
        have hmem := List.mem_of_mem_head? hh
        obtain ⟨f, _, hgf⟩ := List.mem_filterMap.mp hmem
        exact goodDateField_regex field f s hgf
  have hvalid : validCombined ⟨st.termStartDate, st.termEndDate, st.events⟩ = true := by
    unfold validCombined
    apply Bool.and_eq_true_iff.mpr
    refine ⟨Bool.and_eq_true_iff.mpr ⟨?_, ?_⟩, ?_⟩
    · rw [htsd2]; exact hdate "termStartDate"
    · rw [htend2]; exact hdate "termEndDate"
    · rw [hev2]
      apply List.all_eq_true.mpr
      intro e he
      exact flatMap_fileEvents_valid files e he
  unfold processAiJob
  dsimp only
  rw [← hst, hcond]
  simp only [Bool.false_eq_true, if_false]
  rw [hvalid]
  simp only [if_true]

/-- Amended C5: over readable, distinct temp paths, each merged term-date
field equals the value supplied by the first file that has a usable events
array and a non-empty, well-formed YYYY-MM-DD string for that field (later
files are ignored once the field is set); and a usable file carrying a
malformed non-empty string for a field while the field is still unset
contributes a warning naming the field and the offending value, without
aborting the job.  (As stated, the claim fails: a well-formed date in a
file without a usable events array is never examined, and an empty-string
or non-string date value is skipped silently — see the counterexample.) -/
theorem c5_amended_first_writer_dates (sid : String) (files : List FileSpec)
    (fs0 : List String) (redis : List (String × RedisVal))
    (h1 : ∀ f ∈ files, fs0.contains f.path = true)
    (h2 : (files.map FileSpec.path).Nodup)
    (h3 : ∃ f ∈ files, isThrowB f.extract = false) :
    ∃ pv, (processAiJob sid files fs0 redis).outcome = .jobCompleted pv ∧
      pv.scheduleData.termStartDate = (files.filterMap (goodDateField "termStartDate")).head? ∧
      pv.scheduleData.termEndDate = (files.filterMap (goodDateField "termEndDate")).head? ∧
      (∀ pre f post s, files = pre ++ f :: post →
        (∀ g ∈ pre, goodDateField "termStartDate" g = none) →
        fileUsableB f = true → aiDateField f "termStartDate" = some (.jstr s) →
        s ≠ "" → dateRegexTest s = false →
        (⟨f.filename, startDateWarnMsg, "termStartDate", .jstr s⟩ : PWarning)
          ∈ pv.processingWarnings) ∧
      (∀ pre f post s, files = pre ++ f :: post →
        (∀ g ∈ pre, goodDateField "termEndDate" g = none) →
        fileUsableB f = true → aiDateField f "termEndDate" = some (.jstr s) →
        s ≠ "" → dateRegexTest s = false →
        (⟨f.filename, endDateWarnMsg, "termEndDate", .jstr s⟩ : PWarning)
          ∈ pv.processingWarnings) := by
  obtain ⟨_, _, _, htsd, htend, _⟩ := foldl_stepFile_char files (initWState fs0) h1 h2
  refine ⟨_, processAiJob_completes sid files fs0 redis h1 h2 h3, ?_, ?_, ?_, ?_⟩
  · simpa [initWState, orO] using htsd
  · simpa [initWState, orO] using htend
  · intro pre f post s hsplit hpre hus hval hs hr
    exact warnStart_mem_foldl files (initWState fs0) h1 h2 rfl pre f post s hsplit hpre hus hval hs hr
  · intro pre f post s hsplit hpre hus hval hs hr
    exact warnEnd_mem_foldl files (initWState fs0) h1 h2 rfl pre f post s hsplit hpre hus hval hs hr

/-- The claim's reading of the term-date rule, stated from the claim's
words for comparison: the first file (in input order) whose raw AI value
for the field is a well-formed YYYY-MM-DD string supplies the merged
value, regardless of whether that file's events array is usable. -/
def claimFirstDate (files : List FileSpec) (field : String) : Option String :=
  (files.filterMap (fun f =>
    match aiDateField f field with
    | some (.jstr s) => if dateRegexTest s then some s else none
    | _ => none)).head?

/-- Counterexample to C5 as stated: the first file supplies a well-formed
start date but its output has no usable events array, so the worker never
examines it; the merged start date comes from the second file instead of
the first-supplied value predicted by the claim. -/
theorem c5_counterexample :
    claimFirstDate
        [⟨"/t/a", "a.png", .extReturn (.jobj [("scheduleEvents", .jnull),
              ("termStartDate", .jstr "2024-01-01")])⟩,
         ⟨"/t/b", "b.png", .extReturn (.jobj [("scheduleEvents", .jarr []),
              ("termStartDate", .jstr "2024-02-02")])⟩]
        "termStartDate" = some "2024-01-01" ∧
    ((processAiJob "s"
        [⟨"/t/a", "a.png", .extReturn (.jobj [("scheduleEvents", .jnull),
              ("termStartDate", .jstr "2024-01-01")])⟩,
         ⟨"/t/b", "b.png", .extReturn (.jobj [("scheduleEvents", .jarr []),
              ("termStartDate", .jstr "2024-02-02")])⟩]
        ["/t/a", "/t/b"] []).outcome.previewOf.map
        (fun pv => pv.scheduleData.termStartDate)) = some (some "2024-02-02") :=
  ⟨rfl, rfl⟩

/-- Witness for the amended C5 at a concrete two-file job: the first file
is usable but carries a malformed start date (warning recorded, field left
unset by it), the second supplies the captured value. -/
theorem c5_amended_first_writer_dates_witness :
    (let files : List FileSpec :=
      [⟨"/t/c", "c.png", .extReturn (.jobj [("scheduleEvents", .jarr []),
            ("termStartDate", .jstr "bad-date")])⟩,
       ⟨"/t/d", "d.png", .extReturn (.jobj [("scheduleEvents", .jarr []),
            ("termStartDate", .jstr "2024-02-02")])⟩];
     ∃ pv, (processAiJob "s" files ["/t/c", "/t/d"] []).outcome = .jobCompleted pv ∧
       pv.scheduleData.termStartDate = (files.filterMap (goodDateField "termStartDate")).head? ∧
       pv.scheduleData.termEndDate = (files.filterMap (goodDateField "termEndDate")).head? ∧
       (∀ pre f post s, files = pre ++ f :: post →
         (∀ g ∈ pre, goodDateField "termStartDate" g = none) →
         fileUsableB f = true → aiDateField f "termStartDate" = some (.jstr s) →
         s ≠ "" → dateRegexTest s = false →
         (⟨f.filename, startDateWarnMsg, "termStartDate", .jstr s⟩ : PWarning)
           ∈ pv.processingWarnings) ∧
       (∀ pre f post s, files = pre ++ f :: post →
         (∀ g ∈ pre, goodDateField "termEndDate" g = none) →
         fileUsableB f = true → aiDateField f "termEndDate" = some (.jstr s) →
         s ≠ "" → dateRegexTest s = false →
         (⟨f.filename, endDateWarnMsg, "termEndDate", .jstr s⟩ : PWarning)
           ∈ pv.processingWarnings)) :=
  c5_amended_first_writer_dates "s" _ _ _
    (by intro f hf; fin_cases hf <;> rfl)
    (by decide)
    ⟨_, List.mem_cons_self _ _, rfl⟩

/-- C6: for every candidate event in a readable file's usable extraction
result, the merger keeps the event if and only if it passes
`scheduleEventSchema` (non-empty days list of strings, startTime/endTime
matching the 12-hour time pattern, correctly-typed fields); an event
failing validation is only dropped — the file is recorded with no
processing error and still counts as processed, so event-validation
failures never harden into a file or job failure. -/
theorem c6_event_validation_filter :
    (∀ (st : WState) (f : FileSpec) (j : Json) (l : List Json),
      st.fs.contains f.path = true → f.extract = .extReturn j → aiEventsArr j = some l →
      (stepFile st f).events = st.events ++ l.filter validEventJson ∧
      (stepFile st f).errors = st.errors ∧
      (stepFile st f).okCount = st.okCount + 1) ∧
    (∀ (l : List Json) (e : Json),
      e ∈ l.filter validEventJson ↔ (e ∈ l ∧ validEventJson e = true)) := by
  constructor
  · intro st f j l hread hext harr
    rw [stepFile_readable st f hread]
    have hfe : fileEvents f = l.filter validEventJson := by
      simp only [fileEvents, hext, harr]
    have hferr : fileErr f = none := by
      simp only [fileErr, hext, harr]
    have hus : fileUsableB f = true := by
      simp only [fileUsableB, hext, harr, Option.isSome_some]
    refine ⟨by rw [hfe], by rw [hferr]; simp, ?_⟩
    dsimp only
    rw [hus]
    rfl
  · intro l e
    constructor
    · intro h
      exact ⟨(List.mem_filter.mp h).1, (List.mem_filter.mp h).2⟩
    · intro h
      exact List.mem_filter.mpr ⟨h.1, h.2⟩

/-- Witness for C6 at a concrete file whose usable result holds a single
invalid candidate event. -/
theorem c6_event_validation_filter_witness :
    (let st := initWState ["/p"];
     let f : FileSpec := ⟨"/p", "p.png",
       .extReturn (.jobj [("scheduleEvents", .jarr [.jstr "bad"])])⟩;
     (stepFile st f).events = st.events ++ ([.jstr "bad"] : List Json).filter validEventJson ∧
     (stepFile st f).errors = st.errors ∧
     (stepFile st f).okCount = st.okCount + 1) ∧
    ((.jstr "bad" : Json) ∈ ([.jstr "bad"] : List Json).filter validEventJson ↔
      ((.jstr "bad" : Json) ∈ ([.jstr "bad"] : List Json) ∧ validEventJson (.jstr "bad") = true)) :=
  ⟨c6_event_validation_filter.1 _ _ _ _ rfl rfl rfl,
   c6_event_validation_filter.2 _ _⟩

/-- C4: given termStartDate=2024-09-02 (a Monday), termEndDate=2024-12-10,
a valid timezone (the runtime modelled at UTC), and an event on
Monday/Wednesday from 09:00 AM to 10:30 AM, formatEventsForGoogle emits —
for every random color source — one descriptor whose weekly recurrence
rule is bounded by UNTIL=20241211T000000Z (one day past termEndDate at
midnight UTC) and whose first occurrence starts 2024-09-02 at local 09:00
(and ends at local 10:30). -/
theorem c4_recurrence_correctness (r : Nat → Nat) :
    ∃ ev : GEvent,
      formatEventsForGoogle
        ⟨some "2024-09-02", some "2024-12-10",
         [⟨"CS101", none, none, ["Monday", "Wednesday"], "09:00 AM", "10:30 AM", none⟩]⟩
        ⟨"UTC", true, 0⟩ 0 r = .ok [ev] ∧
      ev.recurrence = ["RRULE:FREQ=WEEKLY;BYDAY=MO,WE;UNTIL=20241211T000000Z"] ∧
      ev.startDateTime = "2024-09-02T09:00:00Z" ∧
      ev.endDateTime = "2024-09-02T10:30:00Z" := by
  refine
    ⟨{ summary := "CS101", location := none,
       description := "Course: CS101\nSection: N/A\nName: N/A",
       startDateTime := "2024-09-02T09:00:00Z", endDateTime := "2024-09-02T10:30:00Z",
       timeZone := "UTC",
       recurrence := ["RRULE:FREQ=WEEKLY;BYDAY=MO,WE;UNTIL=20241211T000000Z"],
       colorId := some (GOOGLE_COLOR_IDS.getD (r 0 % GOOGLE_COLOR_IDS.length) "") },
     ?_, rfl, rfl, rfl⟩
  rfl

/-! ## Color assignment (C7) -/

/-- The color-map evolution of a sequence of course codes. -/
def colorFold (r : Nat → Nat) (cs : ColorState) (codes : List String) : ColorState :=
  codes.foldl (fun s c => (assignColor r s c).2) cs

/-- The non-empty course codes of an event list. -/
def nonemptyCodes (evs : List SEvent) : List String :=
  (evs.map SEvent.courseCode).filter (fun c => c != "")

theorem mapLookup_nil (x : String) : mapLookup [] x = none := rfl

theorem mapLookup_cons (k v : String) (m : List (String × String)) (x : String) :
    mapLookup ((k, v) :: m) x = if k == x then some v else mapLookup m x := by
  unfold mapLookup
  rw [List.find?_cons]
  by_cases h : (k == x) = true
  · simp [h]
  · simp [h]

theorem mapLookup_none_not_mem (m : List (String × String)) (k : String)
    (h : mapLookup m k = none) : k ∉ m.map Prod.fst := by
  intro hmem
  obtain ⟨⟨k2, v2⟩, hm2, hk2⟩ := List.mem_map.mp hmem
  dsimp at hk2
  subst hk2
  unfold mapLookup at h
  cases hf : List.find? (fun p => p.1 == k2) m with
  | some p => rw [hf] at h; cases h
  | none =>
      have := List.find?_eq_none.mp hf (k2, v2) hm2
      simp at this

theorem mapLookup_some_mem_values (m : List (String × String)) (k v : String)
    (h : mapLookup m k = some v) : v ∈ m.map Prod.snd := by
  unfold mapLookup at h
  cases hf : List.find? (fun p => p.1 == k) m with
  | none => rw [hf] at h; cases h
  | some p =>
      rw [hf] at h
      have hm := List.mem_of_find?_eq_some hf
      cases h
      exact List.mem_map_of_mem Prod.snd hm

/-- An established color-map binding survives one assignment. -/
theorem assign_preserves_lookup (r : Nat → Nat) (cs : ColorState) (code x v : String)
    (h : mapLookup cs.cmap x = some v) :
    mapLookup (assignColor r cs code).2.cmap x = some v := by
  unfold assignColor
  by_cases hc : (code != "") = true
  · rw [if_pos hc]
    cases hl : mapLookup cs.cmap code with
    | some c => exact h
    | none =>
        have hne : (code == x) = false := by
          by_cases he : code = x
          · rw [he] at hl; rw [hl] at h; cases h
          · simpa using he
        by_cases ha : cs.avail.length > 0
        · rw [if_pos ha]
          dsimp only
          rw [mapLookup_cons, hne]
          exact h
        · rw [if_neg ha]
          dsimp only
          rw [mapLookup_cons, hne]
          exact h
  · rw [if_neg hc]
    exact h

/-- Assigning a non-empty code yields a color recorded in the map. -/
theorem assign_sets (r : Nat → Nat) (cs : ColorState) (code : String) (hc : code ≠ "") :
    ∃ c, (assignColor r cs code).1 = some c ∧
      mapLookup (assignColor r cs code).2.cmap code = some c := by
  unfold assignColor
  have hc2 : (code != "") = true := by simpa using hc
  rw [if_pos hc2]
  cases hl : mapLookup cs.cmap code with
  | some c => exact ⟨c, rfl, hl⟩
  | none =>
      by_cases ha : cs.avail.length > 0
      · rw [if_pos ha]
        dsimp only
        refine ⟨_, rfl, ?_⟩
        rw [mapLookup_cons]
        simp
      · rw [if_neg ha]
        dsimp only
        refine ⟨_, rfl, ?_⟩
        rw [mapLookup_cons]
        simp

/-- An established binding survives one event step. -/
theorem processEvent_preserves_lookup (r : Nat → Nat) (ctx : FmtCtx) (cs : ColorState)
    (ev : SEvent) (x v : String) (h : mapLookup cs.cmap x = some v) :
    mapLookup (processEvent r ctx cs ev).2.cmap x = some v := by
  unfold processEvent
  cases hpp : preprocess ctx ev with
  | error reason => exact h
  | ok d => exact assign_preserves_lookup r cs ev.courseCode x v h

/-- An established binding survives the event loop. -/
theorem formatLoop_preserves_lookup (r : Nat → Nat) (ctx : FmtCtx) (evs : List SEvent)
    (cs : ColorState) (x v : String) (h : mapLookup cs.cmap x = some v) :
    mapLookup (formatLoop r ctx cs evs).2.cmap x = some v := by
  induction evs generalizing cs with
  | nil => exact h
  | cons e0 rest ih =>
      unfold formatLoop
      dsimp only
      exact ih (processEvent r ctx cs e0).2 (processEvent_preserves_lookup r ctx cs e0 x v h)

/-- An emitted event's color is its code's binding in the final color map
(and is always assigned for a non-empty code). -/
theorem emitted_color_lookup (r : Nat → Nat) (ctx : FmtCtx) (evs : List SEvent)
    (cs : ColorState) (ev : SEvent) (d : GEvent)
    (hmem : (ev, EventStep.emitted d) ∈ (formatLoop r ctx cs evs).1)
    (hcode : ev.courseCode ≠ "") :
    mapLookup (formatLoop r ctx cs evs).2.cmap ev.courseCode = d.colorId ∧
    ∃ c, d.colorId = some c := by
  induction evs generalizing cs with
  | nil => simp [formatLoop] at hmem
  | cons e0 rest ih =>
      unfold formatLoop at hmem ⊢
      dsimp only at hmem ⊢
      rcases List.mem_cons.mp hmem with heq | htail
      · have he0 : e0 = ev := congrArg Prod.fst heq.symm
        have hstep : (processEvent r ctx cs e0).1 = EventStep.emitted d :=
          (congrArg Prod.snd heq).symm
        subst he0
        unfold processEvent at hstep ⊢
        cases hpp : preprocess ctx e0 with
        | error reason => rw [hpp] at hstep; cases hstep
        | ok dd =>
            rw [hpp] at hstep
            dsimp only at hstep ⊢
            have hdval : EventStep.emitted (buildEvent ctx e0 dd (assignColor r cs e0.courseCode).1) = EventStep.emitted d := hstep
            have hd : d = buildEvent ctx e0 dd (assignColor r cs e0.courseCode).1 := by
              cases hdval
              rfl
            obtain ⟨c, hc1, hc2⟩ := assign_sets r cs e0.courseCode hcode
            have hcol : d.colorId = some c := by
              rw [hd]
              unfold buildEvent
              dsimp only
              exact hc1
            refine ⟨?_, ⟨c, hcol⟩⟩
            rw [hcol]
            exact formatLoop_preserves_lookup r ctx rest _ e0.courseCode c hc2
      · exact ih (processEvent r ctx cs e0).2 htail

/-- In a duplicate-free list, the element at an index does not survive the
removal of that index. -/
theorem not_mem_eraseIdx_of_nodup :
    ∀ (l : List String) (i : Nat) (h : i < l.length), l.Nodup →
      l.get ⟨i, h⟩ ∉ l.eraseIdx i := by
  intro l
  induction l with
  | nil => intro i h; cases h
  | cons a rest ih =>
      intro i h hnd
      cases i with
      | zero =>
          simp only [List.eraseIdx, List.get]
          exact (List.nodup_cons.mp hnd).1
      | succ n =>
          simp only [List.eraseIdx, List.get, List.mem_cons]
          have hn : n < rest.length := Nat.lt_of_succ_lt_succ h
          rintro (heq | hmem)
          · exact (List.nodup_cons.mp hnd).1 (heq ▸ rest.get_mem n hn)
          · exact ih n hn (List.nodup_cons.mp hnd).2 hmem

/-- The color-state invariant maintained while the palette is being
consumed: distinct keys, distinct assigned colors disjoint from the
remaining palette, and a conserved total of eleven colors. -/
def goodCS (cs : ColorState) : Prop :=
  (cs.cmap.map Prod.fst).Nodup ∧
  (cs.cmap.map Prod.snd).Nodup ∧
  cs.avail.Nodup ∧
  (∀ v ∈ cs.cmap.map Prod.snd, v ∉ cs.avail) ∧
  cs.cmap.length + cs.avail.length = GOOGLE_COLOR_IDS.length

theorem goodCS_init : goodCS initColorState := by
  refine ⟨List.nodup_nil, List.nodup_nil, ?_, ?_, rfl⟩
  · decide
  · intro v hv
    cases hv

/-- One assignment preserves the invariant provided fewer than eleven
codes are mapped whenever a new code arrives. -/
theorem assign_preserves_goodCS (r : Nat → Nat) (cs : ColorState) (code : String)
    (hg : goodCS cs)
    (hcap : mapLookup cs.cmap code = none → code ≠ "" →
      cs.cmap.length < GOOGLE_COLOR_IDS.length) :
    goodCS (assignColor r cs code).2 ∧
    (∀ k ∈ (assignColor r cs code).2.cmap.map Prod.fst,
      k = code ∨ k ∈ cs.cmap.map Prod.fst) := by
  obtain ⟨hk, hv, ha, hdisj, hsum⟩ := hg
  unfold assignColor
  by_cases hc : (code != "") = true
  · rw [if_pos hc]
    cases hl : mapLookup cs.cmap code with
    | some c =>
        exact ⟨⟨hk, hv, ha, hdisj, hsum⟩, fun k hk2 => Or.inr hk2⟩
    | none =>
        have hcne : code ≠ "" := by simpa using hc
        have hlen : cs.cmap.length < GOOGLE_COLOR_IDS.length := hcap hl hcne
        have hapos : 0 < cs.avail.length := by omega
        rw [if_pos hapos]
        dsimp only
        set i := r cs.rk % cs.avail.length with hi
        have hilt : i < cs.avail.length := Nat.mod_lt _ hapos
        have hgetD : cs.avail.getD i "" = cs.avail.get ⟨i, hilt⟩ := by
          simp [List.getD_eq_getElem?_getD, List.getElem?_eq_getElem hilt]
        have hcmem : cs.avail.getD i "" ∈ cs.avail := by
          rw [hgetD]
          exact cs.avail.get_mem i hilt
        have hknew : (code :: cs.cmap.map Prod.fst).Nodup :=
          List.nodup_cons.mpr ⟨mapLookup_none_not_mem cs.cmap code hl, hk⟩
        have hcnotv : cs.avail.getD i "" ∉ cs.cmap.map Prod.snd := by
          intro hmem
          exact hdisj _ hmem hcmem
        have hvnew : (cs.avail.getD i "" :: cs.cmap.map Prod.snd).Nodup :=
          List.nodup_cons.mpr ⟨hcnotv, hv⟩
        have hanew : (cs.avail.eraseIdx i).Nodup := (List.eraseIdx_sublist cs.avail i).nodup ha
        have hdnew : ∀ v ∈ cs.avail.getD i "" :: cs.cmap.map Prod.snd,
            v ∉ cs.avail.eraseIdx i := by
          intro v hvm
          rcases List.mem_cons.mp hvm with he | hm
          · rw [he, hgetD]
            exact not_mem_eraseIdx_of_nodup cs.avail i hilt ha
          · intro hin
            exact hdisj v hm ((List.eraseIdx_sublist cs.avail i).mem hin)
        have hsnew : (cs.cmap.length + 1) + (cs.avail.eraseIdx i).length
            = GOOGLE_COLOR_IDS.length := by
          have he : (cs.avail.eraseIdx i).length = cs.avail.length - 1 := by
            simp [List.length_eraseIdx, hilt]
          omega
        refine ⟨⟨?_, ?_, hanew, ?_, ?_⟩, ?_⟩
        · simpa using hknew
        · simpa using hvnew
        · simpa using hdnew
        · simpa using hsnew
        · intro k hk2
          simp only [List.map_cons, List.mem_cons] at hk2
          exact hk2
  · rw [if_neg hc]
    exact ⟨⟨hk, hv, ha, hdisj, hsum⟩, fun k hk2 => Or.inr hk2⟩

/-- Distinct keys receive distinct values when the value column is
duplicate-free. -/
theorem mapLookup_inj_of_values_nodup (m : List (String × String))
    (hv : (m.map Prod.snd).Nodup) (a b va vb : String)
    (ha : mapLookup m a = some va) (hb : mapLookup m b = some vb)
    (hab : a ≠ b) : va ≠ vb := by
  induction m with
  | nil => cases ha
  | cons p rest ih =>
      obtain ⟨k, v⟩ := p
      have hvtail : (rest.map Prod.snd).Nodup := (List.nodup_cons.mp (by simpa using hv)).2
      have hvhead : v ∉ rest.map Prod.snd := (List.nodup_cons.mp (by simpa using hv)).1
      rw [mapLookup_cons] at ha hb
      by_cases hka : (k == a) = true
      · rw [if_pos hka] at ha
        have hkb : (k == b) = false := by
          have : k = a := by simpa using hka
          subst this
          simpa using hab
        rw [hkb] at hb
        simp only [Bool.false_eq_true, if_false] at hb
        cases ha
        intro he
        exact hvhead (he ▸ mapLookup_some_mem_values rest b vb hb)
      · rw [if_neg hka] at ha
        by_cases hkb : (k == b) = true
        · rw [if_pos hkb] at hb
          cases hb
          intro he
          exact hvhead (he ▸ mapLookup_some_mem_values rest a va ha)
        · rw [if_neg hkb] at hb
          exact ih hvtail ha hb

/-- The loop invariant: over a code budget `C` of at most eleven distinct
codes covering every event's non-empty code, the color state keeps the
palette invariant and its keys inside `C`. -/
theorem formatLoop_goodCS (r : Nat → Nat) (ctx : FmtCtx) (evs : List SEvent)
    (C : List String) (hC : C.Nodup) (hCle : C.length ≤ GOOGLE_COLOR_IDS.length) :
    ∀ cs, goodCS cs → (∀ k ∈ cs.cmap.map Prod.fst, k ∈ C) →
    (∀ ev ∈ evs, ev.courseCode ≠ "" → ev.courseCode ∈ C) →
    goodCS (formatLoop r ctx cs evs).2 ∧
    (∀ k ∈ (formatLoop r ctx cs evs).2.cmap.map Prod.fst, k ∈ C) := by
  induction evs with
  | nil => intro cs hg hkeys _; exact ⟨hg, hkeys⟩
  | cons e0 rest ih =>
      intro cs hg hkeys hev
      unfold formatLoop
      dsimp only
      have hstep : goodCS (processEvent r ctx cs e0).2 ∧
          (∀ k ∈ (processEvent r ctx cs e0).2.cmap.map Prod.fst, k ∈ C) := by
        unfold processEvent
        cases hpp : preprocess ctx e0 with
        | error reason => exact ⟨hg, hkeys⟩
        | ok d =>
            dsimp only
            have hcap : mapLookup cs.cmap e0.courseCode = none → e0.courseCode ≠ "" →
                cs.cmap.length < GOOGLE_COLOR_IDS.length := by
              intro hl hcne
              have hkeysnd : (cs.cmap.map Prod.fst).Nodup := hg.1
              have hnew : (e0.courseCode :: cs.cmap.map Prod.fst).Nodup :=
                List.nodup_cons.mpr ⟨mapLookup_none_not_mem cs.cmap e0.courseCode hl, hkeysnd⟩
              have hsub : (e0.courseCode :: cs.cmap.map Prod.fst) ⊆ C := by
                intro x hx
                rcases List.mem_cons.mp hx with he | hm
                · exact he ▸ hev e0 (List.mem_cons_self e0 rest) hcne
                · exact hkeys x hm
              have hle := List.Subperm.length_le (List.subperm_of_subset hnew hsub)
              simp only [List.length_cons] at hle
              have hmaplen : (cs.cmap.map Prod.fst).length = cs.cmap.length :=
                List.length_map cs.cmap Prod.fst
              omega
            obtain ⟨hg2, hk2⟩ := assign_preserves_goodCS r cs e0.courseCode hg hcap
            refine ⟨hg2, ?_⟩
            intro k hk3
            rcases hk2 k hk3 with he | hm
            · by_cases hce : e0.courseCode = ""
              · have hsame : (assignColor r cs e0.courseCode).2 = cs := by
                  unfold assignColor
                  have hb : (e0.courseCode != "") = false := by simpa using hce
                  rw [hb]
                  simp
                rw [hsame] at hk3
                exact hkeys k hk3
              · exact he ▸ hev e0 (List.mem_cons_self e0 rest) hce
            · exact hkeys k hm
      exact ih (processEvent r ctx cs e0).2 hstep.1 hstep.2 (fun ev hm => hev ev (List.mem_cons_of_mem e0 hm))

/-- An established binding survives a code fold. -/
theorem colorFold_preserves_lookup (r : Nat → Nat) :
    ∀ (codes : List String) (cs : ColorState) (x v : String),
      mapLookup cs.cmap x = some v →
      mapLookup (colorFold r cs codes).cmap x = some v := by
  intro codes
  induction codes with
  | nil => intro cs x v h; exact h
  | cons c0 rest ih =>
      intro cs x v h
      exact ih (assignColor r cs c0).2 x v (assign_preserves_lookup r cs c0 x v h)

/-- Draining the palette: folding fresh non-empty distinct codes that fit
in the remaining palette consumes one slot per code, keeps the fallback
cursor, and leaves other bindings unchanged. -/
theorem colorFold_drain (r : Nat → Nat) :
    ∀ (codes : List String) (cs : ColorState),
      (∀ c ∈ codes, c ≠ "" ∧ mapLookup cs.cmap c = none) → codes.Nodup →
      codes.length ≤ cs.avail.length →
      (colorFold r cs codes).avail.length = cs.avail.length - codes.length ∧
      (colorFold r cs codes).fb = cs.fb ∧
      (∀ x, x ∉ codes → mapLookup (colorFold r cs codes).cmap x = mapLookup cs.cmap x) := by
  intro codes
  induction codes with
  | nil => intro cs _ _ _; exact ⟨by simp [colorFold], rfl, fun x _ => rfl⟩
  | cons c0 rest ih =>
      intro cs hfresh hnd hlen
      obtain ⟨hc0ne, hc0l⟩ := hfresh c0 (List.mem_cons_self c0 rest)
      have hapos : 0 < cs.avail.length := by
        simp only [List.length_cons] at hlen
        omega
      have hstep : (assignColor r cs c0).2 =
          { cmap := (c0, cs.avail.getD (r cs.rk % cs.avail.length) "") :: cs.cmap,
            avail := cs.avail.eraseIdx (r cs.rk % cs.avail.length),
            fb := cs.fb, rk := cs.rk + 1 } := by
        unfold assignColor
        have hb : (c0 != "") = true := by simpa using hc0ne
        rw [if_pos hb, hc0l, if_pos hapos]
      have hilt : r cs.rk % cs.avail.length < cs.avail.length := Nat.mod_lt _ hapos
      have herase : (cs.avail.eraseIdx (r cs.rk % cs.avail.length)).length
          = cs.avail.length - 1 := by
        simp [List.length_eraseIdx, hilt]
      have hfresh2 : ∀ c ∈ rest, c ≠ "" ∧ mapLookup (assignColor r cs c0).2.cmap c = none := by
        intro c hc
        obtain ⟨hcne, hcl⟩ := hfresh c (List.mem_cons_of_mem c0 hc)
        refine ⟨hcne, ?_⟩
        rw [hstep]
        dsimp only
        rw [mapLookup_cons]
        have hne : (c0 == c) = false := by
          have : c0 ≠ c := by
            intro he
            exact (List.nodup_cons.mp hnd).1 (he ▸ hc)
          simpa using this
        rw [hne]
        simpa using hcl
      have hlen2 : rest.length ≤ (assignColor r cs c0).2.avail.length := by
        rw [hstep]
        dsimp only
        rw [herase]
        simp only [List.length_cons] at hlen
        omega
      obtain ⟨iha, ihf, ihl⟩ := ih (assignColor r cs c0).2 hfresh2 (List.nodup_cons.mp hnd).2 hlen2
      refine ⟨?_, ?_, ?_⟩
      · show (colorFold r (assignColor r cs c0).2 rest).avail.length = _
        rw [iha, hstep]
        dsimp only
        rw [herase]
        simp only [List.length_cons]
        omega
      · show (colorFold r (assignColor r cs c0).2 rest).fb = _
        rw [ihf, hstep]
      · intro x hx
        have hxrest : x ∉ rest := fun hm => hx (List.mem_cons_of_mem c0 hm)
        have hxc0 : x ≠ c0 := fun he => hx (he ▸ List.mem_cons_self c0 rest)
        show mapLookup (colorFold r (assignColor r cs c0).2 rest).cmap x = _
        rw [ihl x hxrest, hstep]
        dsimp only
        rw [mapLookup_cons]
        have hne : (c0 == x) = false := by simpa using (Ne.symm hxc0)
        rw [hne]
        simp

/-- Once the palette is exhausted, the n-th further fresh code receives
the deterministically cycled color `GOOGLE_COLOR_IDS[(fb + n) % 11]`. -/
theorem colorFold_fallback (r : Nat → Nat) :
    ∀ (codes : List String) (cs : ColorState),
      (∀ c ∈ codes, c ≠ "" ∧ mapLookup cs.cmap c = none) → codes.Nodup →
      cs.avail = [] →
      ∀ n, n < codes.length →
        mapLookup (colorFold r cs codes).cmap (codes.getD n "") =
          some (GOOGLE_COLOR_IDS.getD ((cs.fb + n) % GOOGLE_COLOR_IDS.length) "") := by
  intro codes
  induction codes with
  | nil => intro cs _ _ _ n hn; cases hn
  | cons c0 rest ih =>
      intro cs hfresh hnd hav n hn
      obtain ⟨hc0ne, hc0l⟩ := hfresh c0 (List.mem_cons_self c0 rest)
      have hstep : (assignColor r cs c0).2 =
          { cmap := (c0, GOOGLE_COLOR_IDS.getD (cs.fb % GOOGLE_COLOR_IDS.length) "") :: cs.cmap,
            avail := cs.avail, fb := cs.fb + 1, rk := cs.rk } := by
        unfold assignColor
        have hb : (c0 != "") = true := by simpa using hc0ne
        have hnl : ¬ (cs.avail.length > 0) := by rw [hav]; simp
        rw [if_pos hb, hc0l, if_neg hnl]
      cases n with
      | zero =>
          show mapLookup (colorFold r (assignColor r cs c0).2 rest).cmap ((c0 :: rest).getD 0 "") = _
          have hl0 : mapLookup (assignColor r cs c0).2.cmap c0 =
              some (GOOGLE_COLOR_IDS.getD (cs.fb % GOOGLE_COLOR_IDS.length) "") := by
            rw [hstep]
            dsimp only
            rw [mapLookup_cons]
            simp
          simp only [List.getD_cons_zero]
          rw [colorFold_preserves_lookup r rest _ c0 _ hl0]
          congr 1
      | succ m =>
          have hm : m < rest.length := by
            simp only [List.length_cons] at hn
            omega
          have hfresh2 : ∀ c ∈ rest, c ≠ "" ∧ mapLookup (assignColor r cs c0).2.cmap c = none := by
            intro c hc
            obtain ⟨hcne, hcl⟩ := hfresh c (List.mem_cons_of_mem c0 hc)
            refine ⟨hcne, ?_⟩
            rw [hstep]
            dsimp only
            rw [mapLookup_cons]
            have hne : (c0 == c) = false := by
              have : c0 ≠ c := fun he => (List.nodup_cons.mp hnd).1 (he ▸ hc)
              simpa using this
            rw [hne]
            simpa using hcl
          have hav2 : (assignColor r cs c0).2.avail = [] := by rw [hstep]; exact hav
          have := ih (assignColor r cs c0).2 hfresh2 (List.nodup_cons.mp hnd).2 hav2 m hm
          show mapLookup (colorFold r (assignColor r cs c0).2 rest).cmap
              ((c0 :: rest).getD (m + 1) "") = _
          simp only [List.getD_cons_succ]
          rw [this, hstep]
          dsimp only
          have harith : cs.fb + 1 + m = cs.fb + (m + 1) := by omega
          rw [harith]

/-- C7: within one formatting call, (a) two emitted events with the same
non-empty courseCode always receive the same colorId; (b) starting from
the fresh per-call color state, events with distinct non-empty courseCodes
receive distinct colorIds as long as the schedule's distinct non-empty
codes fit the 11-color palette (random draws are without replacement);
(c) once the palette is exhausted, the n-th distinct fresh code receives
the deterministically cycled color `GOOGLE_COLOR_IDS[(n - 11) % 11]`. -/
theorem c7_color_assignment :
    (∀ (r : Nat → Nat) (ctx : FmtCtx) (cs : ColorState) (evs : List SEvent)
        (ev1 ev2 : SEvent) (d1 d2 : GEvent),
      (ev1, EventStep.emitted d1) ∈ (formatLoop r ctx cs evs).1 →
      (ev2, EventStep.emitted d2) ∈ (formatLoop r ctx cs evs).1 →
      ev1.courseCode = ev2.courseCode → ev1.courseCode ≠ "" →
      d1.colorId = d2.colorId) ∧
    (∀ (r : Nat → Nat) (ctx : FmtCtx) (evs : List SEvent)
        (ev1 ev2 : SEvent) (d1 d2 : GEvent),
      (nonemptyCodes evs).dedup.length ≤ GOOGLE_COLOR_IDS.length →
      (ev1, EventStep.emitted d1) ∈ (formatLoop r ctx initColorState evs).1 →
      (ev2, EventStep.emitted d2) ∈ (formatLoop r ctx initColorState evs).1 →
      ev1.courseCode ≠ ev2.courseCode → ev1.courseCode ≠ "" → ev2.courseCode ≠ "" →
      d1.colorId ≠ d2.colorId) ∧
    (∀ (r : Nat → Nat) (codes : List String) (n : Nat),
      codes.Nodup → (∀ c ∈ codes, c ≠ "") →
      GOOGLE_COLOR_IDS.length ≤ n → n < codes.length →
      mapLookup (colorFold r initColorState codes).cmap (codes.getD n "")
        = some (GOOGLE_COLOR_IDS.getD
            ((n - GOOGLE_COLOR_IDS.length) % GOOGLE_COLOR_IDS.length) "")) := by
  refine ⟨?_, ?_, ?_⟩
  · intro r ctx cs evs ev1 ev2 d1 d2 hm1 hm2 hcodes hne
    obtain ⟨hl1, _⟩ := emitted_color_lookup r ctx evs cs ev1 d1 hm1 hne
    obtain ⟨hl2, _⟩ := emitted_color_lookup r ctx evs cs ev2 d2 hm2 (hcodes ▸ hne)
    rw [← hl1, ← hl2, hcodes]
  · intro r ctx evs ev1 ev2 d1 d2 hle hm1 hm2 hne hc1 hc2
    have hC : ((nonemptyCodes evs).dedup).Nodup := List.nodup_dedup _
    have hev : ∀ ev ∈ evs, ev.courseCode ≠ "" → ev.courseCode ∈ (nonemptyCodes evs).dedup := by
      intro ev hmem hcne
      apply List.mem_dedup.mpr
      unfold nonemptyCodes
      exact List.mem_filter.mpr ⟨List.mem_map_of_mem SEvent.courseCode hmem, by simpa⟩
    obtain ⟨hgood, _⟩ := formatLoop_goodCS r ctx evs _ hC hle initColorState goodCS_init
      (by intro k hk; cases hk) hev
    obtain ⟨hl1, c1, hv1⟩ := emitted_color_lookup r ctx evs initColorState ev1 d1 hm1 hc1
    obtain ⟨hl2, c2, hv2⟩ := emitted_color_lookup r ctx evs initColorState ev2 d2 hm2 hc2
    have hvne : c1 ≠ c2 := by
      apply mapLookup_inj_of_values_nodup _ hgood.2.1 ev1.courseCode ev2.courseCode c1 c2
      · rw [hl1, hv1]
      · rw [hl2, hv2]
      · exact hne
    rw [hv1, hv2]
    intro he
    exact hvne (Option.some.inj he)
  · intro r codes n hnd hnonempty h11 hn
    have hsplit : codes.take GOOGLE_COLOR_IDS.length ++ codes.drop GOOGLE_COLOR_IDS.length
        = codes := List.take_append_drop _ _
    have hfold : colorFold r initColorState codes =
        colorFold r (colorFold r initColorState (codes.take GOOGLE_COLOR_IDS.length))
          (codes.drop GOOGLE_COLOR_IDS.length) := by
      unfold colorFold
      rw [← List.foldl_append, hsplit]
    have htlen : (codes.take GOOGLE_COLOR_IDS.length).length = GOOGLE_COLOR_IDS.length := by
      rw [List.length_take]
      omega
    have htnd : (codes.take GOOGLE_COLOR_IDS.length).Nodup :=
      (List.take_sublist _ _).nodup hnd
    have htfresh : ∀ c ∈ codes.take GOOGLE_COLOR_IDS.length,
        c ≠ "" ∧ mapLookup initColorState.cmap c = none := by
      intro c hc
      exact ⟨hnonempty c (List.mem_of_mem_take hc), rfl⟩
    have hilen : (GOOGLE_COLOR_IDS.length : Nat) ≤ initColorState.avail.length := le_refl _
    obtain ⟨hda, hdf, hdl⟩ := colorFold_drain r (codes.take GOOGLE_COLOR_IDS.length)
      initColorState htfresh htnd (by rw [htlen]; exact hilen)
    set cs1 := colorFold r initColorState (codes.take GOOGLE_COLOR_IDS.length) with hcs1
    have hav1 : cs1.avail = [] := by
      apply List.length_eq_zero.mp
      have hinit : initColorState.avail.length = GOOGLE_COLOR_IDS.length := rfl
      rw [hda, htlen, hinit]
      omega
    have hfb1 : cs1.fb = 0 := by rw [hdf]; rfl
    have hdisj : ∀ c ∈ codes.drop GOOGLE_COLOR_IDS.length,
        c ∉ codes.take GOOGLE_COLOR_IDS.length := by
      intro c hcd hct
      have hnd2 : (codes.take GOOGLE_COLOR_IDS.length ++
          codes.drop GOOGLE_COLOR_IDS.length).Nodup := by rw [hsplit]; exact hnd
      exact (List.disjoint_of_nodup_append hnd2) hct hcd
    have hdfresh : ∀ c ∈ codes.drop GOOGLE_COLOR_IDS.length,
        c ≠ "" ∧ mapLookup cs1.cmap c = none := by
      intro c hc
      refine ⟨hnonempty c (List.mem_of_mem_drop hc), ?_⟩
      rw [hdl c (hdisj c hc)]
      rfl
    have hdnd : (codes.drop GOOGLE_COLOR_IDS.length).Nodup :=
      (List.drop_sublist _ _).nodup hnd
    have hmlt : n - GOOGLE_COLOR_IDS.length < (codes.drop GOOGLE_COLOR_IDS.length).length := by
      rw [List.length_drop]
      omega
    have hres := colorFold_fallback r (codes.drop GOOGLE_COLOR_IDS.length) cs1
      hdfresh hdnd hav1 (n - GOOGLE_COLOR_IDS.length) hmlt
    rw [hfb1] at hres
    have hgetD : (codes.drop GOOGLE_COLOR_IDS.length).getD (n - GOOGLE_COLOR_IDS.length) ""
        = codes.getD n "" := by
      rw [List.getD_eq_getElem?_getD, List.getD_eq_getElem?_getD, List.getElem?_drop]
      congr 2
      omega
    rw [hfold]
    rw [hgetD] at hres
    rw [hres]
    rw [Nat.zero_add]

/-- Witness for C7 at concrete runs: two distinct codes in one fresh call
receive distinct colors; a same-code pair receives equal colors; and with
twelve distinct codes the twelfth receives the first cycled color. -/
theorem c7_color_assignment_witness :
    ((({ summary := "CS101", location := none,
         description := "Course: CS101\nSection: N/A\nName: N/A",
         startDateTime := "2024-09-02T09:00:00Z", endDateTime := "2024-09-02T10:30:00Z",
         timeZone := "UTC", recurrence := ["RRULE:FREQ=WEEKLY;BYDAY=MO;UNTIL=20241211T000000Z"],
         colorId := some "1" } : GEvent).colorId
      = ({ summary := "CS101", location := none,
           description := "Course: CS101\nSection: N/A\nName: N/A",
           startDateTime := "2024-09-02T09:00:00Z", endDateTime := "2024-09-02T10:30:00Z",
           timeZone := "UTC", recurrence := ["RRULE:FREQ=WEEKLY;BYDAY=MO;UNTIL=20241211T000000Z"],
           colorId := some "1" } : GEvent).colorId) ∧
     (({ summary := "CS101", location := none,
         description := "Course: CS101\nSection: N/A\nName: N/A",
         startDateTime := "2024-09-02T09:00:00Z", endDateTime := "2024-09-02T10:30:00Z",
         timeZone := "UTC", recurrence := ["RRULE:FREQ=WEEKLY;BYDAY=MO;UNTIL=20241211T000000Z"],
         colorId := some "1" } : GEvent).colorId
      ≠ ({ summary := "MATH200", location := none,
           description := "Course: MATH200\nSection: N/A\nName: N/A",
           startDateTime := "2024-09-02T09:00:00Z", endDateTime := "2024-09-02T10:30:00Z",
           timeZone := "UTC", recurrence := ["RRULE:FREQ=WEEKLY;BYDAY=MO;UNTIL=20241211T000000Z"],
           colorId := some "2" } : GEvent).colorId) ∧
     mapLookup (colorFold (fun _ => 0) initColorState
         ["A", "B", "C", "D", "E", "F", "G", "H", "I", "J", "K", "L"]).cmap
         (["A", "B", "C", "D", "E", "F", "G", "H", "I", "J", "K", "L"].getD 11 "")
       = some (GOOGLE_COLOR_IDS.getD
           ((11 - GOOGLE_COLOR_IDS.length) % GOOGLE_COLOR_IDS.length) "")) :=
  ⟨c7_color_assignment.1 (fun _ => 0)
      { termStartDn := 19968, curIdx := 0, untilInstant := (20069 : Int) * 1440,
        rruleUntilStr := "20241211T000000Z", serverOffset := 0, tzName := "UTC", tzOffset := 0 }
      initColorState
      [⟨"CS101", none, none, ["Monday"], "09:00 AM", "10:30 AM", none⟩]
      ⟨"CS101", none, none, ["Monday"], "09:00 AM", "10:30 AM", none⟩
      ⟨"CS101", none, none, ["Monday"], "09:00 AM", "10:30 AM", none⟩
      _ _ (List.mem_cons_self _ _) (List.mem_cons_self _ _) rfl (by decide),
   c7_color_assignment.2.1 (fun _ => 0)
      { termStartDn := 19968, curIdx := 0, untilInstant := (20069 : Int) * 1440,
        rruleUntilStr := "20241211T000000Z", serverOffset := 0, tzName := "UTC", tzOffset := 0 }
      [⟨"CS101", none, none, ["Monday"], "09:00 AM", "10:30 AM", none⟩,
       ⟨"MATH200", none, none, ["Monday"], "09:00 AM", "10:30 AM", none⟩]
      ⟨"CS101", none, none, ["Monday"], "09:00 AM", "10:30 AM", none⟩
      ⟨"MATH200", none, none, ["Monday"], "09:00 AM", "10:30 AM", none⟩
      _ _ (by decide)
      (List.mem_cons_self _ _)
      (List.mem_cons_of_mem _ (List.mem_cons_self _ _))
      (by decide) (by decide) (by decide),
   c7_color_assignment.2.2 (fun _ => 0)
      ["A", "B", "C", "D", "E", "F", "G", "H", "I", "J", "K", "L"] 11
      (by decide) (by decide) (by decide) (by decide)⟩
